import Mathlib

/-!
# QuadControl: the cascaded quadrotor controller of `src/QuadControl.cpp`

A shallow embedding of the control stages of `QuadControl.cpp` and proofs of
the properties the specification states about them.

Conventions of the embedding

* `float` arithmetic is idealised as exact arithmetic in a linearly ordered
  field `α` (instantiated at `ℚ` or `ℝ` for concrete evaluation).  Rounding,
  infinities and NaN are not modelled; division by zero has the value `0`.
* `sqrtf` (libm) and the constant `CONST_GRAVITY` (`Common.h`) are not part of
  the source file and are taken as parameters.  Properties that depend on what
  `sqrtf` computes assume `IsSqrt sqrtf`.
* The member function `f` of the class becomes a function taking the
  controller `qc : QuadControl α` as an argument; a member function that
  writes a member returns the updated controller next to its result.
-/

namespace QuadControlModel

/-! ## Data model -/

/-- Modelled from the spec: `V3F` (`Math/V3F.h`, not in the source tree), the
"Vector3" of the data model, an ordered triple of reals. -/
@[ext] structure V3F (α : Type) where
  x : α
  y : α
  z : α

/-- Modelled from the spec: `VehicleCommand` (`VehicleDatatypes.h`, not in the
source tree), "desiredThrustsN: fixed-size array of 4 reals". -/
structure VehicleCommand (α : Type) where
  desiredThrustsN : Fin 4 → α

/-- Modelled from the spec: `Mat3x3F` (`Math/Mat3x3F.h`), a 3×3 matrix read
with `R(row, col)`. -/
abbrev Mat3x3F (α : Type) := Fin 3 → Fin 3 → α

/-- Modelled from the spec: `Quaternion<float>` (`Math/Quaternion.h`, not in
the source tree), the "Attitude" of the data model: "a unit quaternion (or
equivalent rotation representation) with derived operations: yaw extraction,
and derivation of a 3×3 rotation matrix".  The attitude is represented by the
two derived quantities the controller reads. -/
structure Quaternion (α : Type) where
  RotationMatrix_IwrtB : Mat3x3F α
  Yaw : α

/-- The members of `QuadControl` (and of its base class) the control stages
read or write: gains and limits loaded by `Init`, the physical constants of
the vehicle, the integral accumulator and the last motor command `cmd`. -/
structure QuadControl (α : Type) where
  kpPosXY : α
  kpPosZ : α
  KiPosZ : α
  kpVelXY : α
  kpVelZ : α
  kpBank : α
  kpYaw : α
  kpPQR : V3F α
  maxDescentRate : α
  maxAscentRate : α
  maxSpeedXY : α
  maxAccelXY : α
  maxTiltAngle : α
  minMotorThrust : α
  maxMotorThrust : α
  mass : α
  L : α
  kappa : α
  Ixx : α
  Iyy : α
  Izz : α
  integratedAltitudeError : α
  cmd : VehicleCommand α

section Defs

variable {α : Type} [LinearOrderedField α]

/-- Modelled from the spec: the macro `CONSTRAIN(a, low, high)` of `Common.h`
(not in the source tree), "clamp `a` into `[low, high]`".  For `low ≤ high`
it is the lower bound if `a` is below it, the upper bound if `a` is above it
and `a` itself otherwise; the properties below that depend on the value of a
clamp assume `low ≤ high`. -/
def CONSTRAIN (a low high : α) : α := max low (min a high)

/-- What `sqrtf` is assumed to compute, where a property depends on it: the
non-negative square root of a non-negative argument. -/
def IsSqrt (sqrtf : α → α) : Prop :=
  ∀ x : α, 0 ≤ x → 0 ≤ sqrtf x ∧ sqrtf x * sqrtf x = x

namespace V3F

/-- Modelled from the spec: `V3F()` , the zero vector. -/
def zero : V3F α := ⟨0, 0, 0⟩

/-- Modelled from the spec: `a + b` on `V3F` ("Supports addition"). -/
def add (a b : V3F α) : V3F α := ⟨a.x + b.x, a.y + b.y, a.z + b.z⟩

/-- Modelled from the spec: `a - b` on `V3F`. -/
def sub (a b : V3F α) : V3F α := ⟨a.x - b.x, a.y - b.y, a.z - b.z⟩

/-- Modelled from the spec: `a * b` on `V3F`, the per-axis product ("⊙ =
per-axis gain"). -/
def mul (a b : V3F α) : V3F α := ⟨a.x * b.x, a.y * b.y, a.z * b.z⟩

/-- Modelled from the spec: `v * s` on `V3F` ("scalar multiply"). -/
def smul (v : V3F α) (s : α) : V3F α := ⟨v.x * s, v.y * s, v.z * s⟩

/-- Modelled from the spec: `v.mag()` ("magnitude"), the Euclidean length. -/
def mag (sqrtf : α → α) (v : V3F α) : α := sqrtf (v.x * v.x + v.y * v.y + v.z * v.z)

/-- Modelled from the spec: `v.norm()` ("normalization"; "Zero-magnitude
vectors must normalize to zero, not NaN/undefined"). -/
def norm (sqrtf : α → α) (v : V3F α) : V3F α :=
  if mag sqrtf v = 0 then zero
  else ⟨v.x / mag sqrtf v, v.y / mag sqrtf v, v.z / mag sqrtf v⟩

instance : Add (V3F α) := ⟨add⟩
instance : Sub (V3F α) := ⟨sub⟩
instance : Mul (V3F α) := ⟨mul⟩
instance : HMul (V3F α) α (V3F α) := ⟨smul⟩

end V3F

/-! ## GenerateMotorCommands (lines 56-100) -/

/-- The lever arm `l = L / sqrtf(2.f)` of line 73. -/
def leverArm (sqrtf : α → α) (qc : QuadControl α) : α := qc.L / sqrtf 2

/-- The four motor thrusts `f_1 .. f_4` of lines 75-90, before clamping. -/
def motorThrusts (sqrtf : α → α) (qc : QuadControl α) (collThrustCmd : α)
    (momentCmd : V3F α) : Fin 4 → α :=
  ![0.25 * (collThrustCmd + momentCmd.x / leverArm sqrtf qc
        + momentCmd.y / leverArm sqrtf qc + momentCmd.z / -qc.kappa),
    0.25 * (collThrustCmd - momentCmd.x / leverArm sqrtf qc
        + momentCmd.y / leverArm sqrtf qc - momentCmd.z / -qc.kappa),
    0.25 * (collThrustCmd + momentCmd.x / leverArm sqrtf qc
        - momentCmd.y / leverArm sqrtf qc - momentCmd.z / -qc.kappa),
    0.25 * (collThrustCmd - momentCmd.x / leverArm sqrtf qc
        - momentCmd.y / leverArm sqrtf qc + momentCmd.z / -qc.kappa)]

/-- `QuadControl::GenerateMotorCommands`: each `f_i` is clamped with
`CONSTRAIN` into `[minMotorThrust, maxMotorThrust]` and stored in the member
`cmd`, which is returned. -/
def GenerateMotorCommands (sqrtf : α → α) (qc : QuadControl α) (collThrustCmd : α)
    (momentCmd : V3F α) : VehicleCommand α × QuadControl α :=
  let f := motorThrusts sqrtf qc collThrustCmd momentCmd
  let cmd : VehicleCommand α :=
    ⟨![CONSTRAIN (f 0) qc.minMotorThrust qc.maxMotorThrust,
       CONSTRAIN (f 1) qc.minMotorThrust qc.maxMotorThrust,
       CONSTRAIN (f 2) qc.minMotorThrust qc.maxMotorThrust,
       CONSTRAIN (f 3) qc.minMotorThrust qc.maxMotorThrust]⟩
  (cmd, { qc with cmd := cmd })

/-! ## AltitudeControl (lines 179-238) -/

/-- The vertical velocity command after lines 205-212: replaced by its
`CONSTRAIN` into `[-maxAscentRate, maxDescentRate]` when it is below the lower
or above the upper limit, unchanged otherwise. -/
def limitVelZCmd (qc : QuadControl α) (velZCmd : α) : α :=
  if velZCmd < -qc.maxAscentRate then
    CONSTRAIN velZCmd (-qc.maxAscentRate) qc.maxDescentRate
  else if velZCmd > qc.maxDescentRate then
    CONSTRAIN velZCmd (-qc.maxAscentRate) qc.maxDescentRate
  else velZCmd

/-- `QuadControl::AltitudeControl`.  Returns the thrust and the controller
with the updated `integratedAltitudeError`.  The `printf` diagnostics of lines
205-218 write to the standard output only and change neither. -/
def AltitudeControl (CONST_GRAVITY : α) (qc : QuadControl α)
    (posZCmd velZCmd posZ velZ : α) (attitude : Quaternion α) (accelZCmd dt : α) :
    α × QuadControl α :=
  let R := attitude.RotationMatrix_IwrtB
  let velZCmd := limitVelZCmd qc velZCmd
  let z_err := posZCmd - posZ
  let z_dot_err := velZCmd - velZ
  let integratedAltitudeError := qc.integratedAltitudeError + z_err * dt
  let p_term := qc.kpPosZ * z_err
  let d_term := qc.kpVelZ * z_dot_err
  let i_term := qc.KiPosZ * integratedAltitudeError
  let acc_bar := p_term + d_term + i_term + accelZCmd
  let acc := (CONST_GRAVITY - acc_bar) / R 2 2
  let thrust := qc.mass * acc
  (thrust, { qc with integratedAltitudeError := integratedAltitudeError })

/-! ## LateralPositionControl (lines 241-284) -/

/-- The local `velCmdConstrained` of lines 261 and 273-274: the velocity
command with its `z` zeroed, normalised and scaled to the speed
`CONSTRAIN(velCmd.mag(), 0, maxSpeedXY)`. -/
def velCmdConstrained (sqrtf : α → α) (qc : QuadControl α) (velCmd : V3F α) : V3F α :=
  let velCmd : V3F α := { velCmd with z := 0 }
  let scalarSpeedXy := CONSTRAIN (velCmd.mag sqrtf) 0 qc.maxSpeedXY
  velCmd.norm sqrtf * scalarSpeedXy

/-- The local `accelCmd` of line 276, the acceleration before its magnitude
is limited, with the overwrites of lines 260-262 applied to the arguments. -/
def lateralAccelCmd (sqrtf : α → α) (qc : QuadControl α)
    (posCmd velCmd pos vel accelCmdFF : V3F α) : V3F α :=
  let accelCmdFF : V3F α := { accelCmdFF with z := 0 }
  let posCmd : V3F α := { posCmd with z := pos.z }
  let kpPos : V3F α := ⟨qc.kpPosXY, qc.kpPosXY, 0⟩
  let kpVel : V3F α := ⟨qc.kpVelXY, qc.kpVelXY, 0⟩
  kpPos * (posCmd - pos) + kpVel * (velCmdConstrained sqrtf qc velCmd - vel) + accelCmdFF

/-- `QuadControl::LateralPositionControl`: `accelCmd` normalised and scaled
to the magnitude `CONSTRAIN(accelCmd.mag(), 0, maxAccelXY)`. -/
def LateralPositionControl (sqrtf : α → α) (qc : QuadControl α)
    (posCmd velCmd pos vel accelCmdFF : V3F α) : V3F α :=
  let accelCmd := lateralAccelCmd sqrtf qc posCmd velCmd pos vel accelCmdFF
  let scalarAccelCmd := CONSTRAIN (accelCmd.mag sqrtf) 0 qc.maxAccelXY
  accelCmd.norm sqrtf * scalarAccelCmd

/-- A controller with representative gains, limits and vehicle constants of a
small quadrotor, used for concrete evaluation. -/
def sampleQuad : QuadControl α :=
  { kpPosXY := 30, kpPosZ := 20, KiPosZ := 40, kpVelXY := 12, kpVelZ := 9,
    kpBank := 10, kpYaw := 2, kpPQR := ⟨70, 70, 15⟩,
    maxDescentRate := 2, maxAscentRate := 5, maxSpeedXY := 5, maxAccelXY := 12,
    maxTiltAngle := 0.7, minMotorThrust := 0.1, maxMotorThrust := 4.5,
    mass := 0.5, L := 0.17, kappa := 0.016,
    Ixx := 0.0023, Iyy := 0.0023, Izz := 0.0046,
    integratedAltitudeError := 0, cmd := ⟨![0, 0, 0, 0]⟩ }

/-! ## LateralPositionControl as the specification words it

The description of the lateral stage in terms of horizontal vectors, written
from the text of the specification and compared with the code below. -/

/-- The magnitude `|v|` of a horizontal vector. -/
def magXY (sqrtf : α → α) (v : α × α) : α := sqrtf (v.1 * v.1 + v.2 * v.2)

/-- The vector `v` "rescaled to magnitude `m` with its direction kept (zero
vector if `v` is zero)". -/
def rescaleXY (sqrtf : α → α) (v : α × α) (m : α) : α × α :=
  if v = (0, 0) then (0, 0) else (m / magXY sqrtf v * v.1, m / magXY sqrtf v * v.2)

/-- The velocity `v'`: "the horizontal part of velCmd rescaled to magnitude
min(|velCmd_xy|, maxSpeedXY)". -/
def specVelXY (sqrtf : α → α) (qc : QuadControl α) (velCmd : V3F α) : α × α :=
  rescaleXY sqrtf (velCmd.x, velCmd.y) (min (magXY sqrtf (velCmd.x, velCmd.y)) qc.maxSpeedXY)

/-- The acceleration `a = kpPosXY*(posCmd - pos)_xy + kpVelXY*(v' - vel_xy)
+ accelCmdFF_xy`. -/
def specAccelXY (sqrtf : α → α) (qc : QuadControl α)
    (posCmd velCmd pos vel accelCmdFF : V3F α) : α × α :=
  (qc.kpPosXY * (posCmd.x - pos.x) + qc.kpVelXY * ((specVelXY sqrtf qc velCmd).1 - vel.x)
      + accelCmdFF.x,
   qc.kpPosXY * (posCmd.y - pos.y) + qc.kpVelXY * ((specVelXY sqrtf qc velCmd).2 - vel.y)
      + accelCmdFF.y)

/-- The result: "a rescaled to magnitude min(|a|, maxAccelXY)". -/
def specLateralXY (sqrtf : α → α) (qc : QuadControl α)
    (posCmd velCmd pos vel accelCmdFF : V3F α) : α × α :=
  rescaleXY sqrtf (specAccelXY sqrtf qc posCmd velCmd pos vel accelCmdFF)
    (min (magXY sqrtf (specAccelXY sqrtf qc posCmd velCmd pos vel accelCmdFF)) qc.maxAccelXY)

/-- The level attitude: identity rotation matrix (so `R(2,2) = 1`), yaw 0. -/
def levelAttitude : Quaternion α :=
  { RotationMatrix_IwrtB := ![![1, 0, 0], ![0, 1, 0], ![0, 0, 1]], Yaw := 0 }

/-- The sample controller with a negative `maxAscentRate`, a value `Init`
accepts from the configuration. -/
def negAscentQuad : QuadControl α := { (sampleQuad : QuadControl α) with maxAscentRate := -1 }

end Defs

section StageDefs

variable {α : Type} [LinearOrderedField α]

/-! ## BodyRateControl (lines 102-127) -/

/-- `QuadControl::BodyRateControl`.  The function-local `static V3F c1` of
line 118 is initialised by the first call that reaches it, in the whole
program, and keeps that value afterwards; it is passed in as `c1`, `none`
before the first call, and returned next to the moment. -/
def BodyRateControl (c1 : Option (V3F α)) (qc : QuadControl α) (pqrCmd pqr : V3F α) :
    V3F α × Option (V3F α) :=
  let c1 : V3F α :=
    match c1 with
    | some c => c
    | none => qc.kpPQR * (⟨qc.Ixx, qc.Iyy, qc.Izz⟩ : V3F α)
  let rate_error := pqrCmd - pqr
  let momentCmd := c1 * rate_error
  (momentCmd, some c1)

/-! ## RollPitchControl (lines 130-177) -/

/-- `QuadControl::RollPitchControl`.  The local `pqrCmd` starts as `V3F()`. -/
def RollPitchControl (qc : QuadControl α) (accelCmd : V3F α) (attitude : Quaternion α)
    (collThrustCmd : α) : V3F α :=
  let pqrCmd : V3F α := V3F.zero
  let pqrCmd : V3F α :=
    if collThrustCmd > 0 then
      let R := attitude.RotationMatrix_IwrtB
      let c := -collThrustCmd / qc.mass
      let b_x_cmd := CONSTRAIN (accelCmd.x / c) (-qc.maxTiltAngle) qc.maxTiltAngle
      let b_x_err := b_x_cmd - R 0 2
      let b_x_p_term := qc.kpBank * b_x_err
      let b_y_cmd := CONSTRAIN (accelCmd.y / c) (-qc.maxTiltAngle) qc.maxTiltAngle
      let b_y_err := b_y_cmd - R 1 2
      let b_y_p_term := qc.kpBank * b_y_err
      { pqrCmd with
        x := (R 1 0 * b_x_p_term - R 0 0 * b_y_p_term) / R 2 2
        y := (R 1 1 * b_x_p_term - R 0 1 * b_y_p_term) / R 2 2 }
    else
      { pqrCmd with x := 0, y := 0 }
  { pqrCmd with z := 0 }

/-- The divisors of the divisions a call of `RollPitchControl` evaluates, in
program order: those of lines 155, 156, 160, 164 and 165 when the branch
`collThrustCmd > 0` is taken, none otherwise. -/
def RollPitchControl_divisors (qc : QuadControl α) (attitude : Quaternion α)
    (collThrustCmd : α) : List α :=
  if collThrustCmd > 0 then
    let R := attitude.RotationMatrix_IwrtB
    let c := -collThrustCmd / qc.mass
    [qc.mass, c, c, R 2 2, R 2 2]
  else []

/-! ## YawControl (lines 287-324) -/

section Yaw

variable [FloorRing α]

/-- The function `fmodf(x, y)` of the C library for exact arithmetic:
`x - n * y` with `n` the quotient `x / y` rounded towards zero. -/
def fmodf (x y : α) : α :=
  x - ((if 0 ≤ x / y then ⌊x / y⌋ else ⌈x / y⌉ : ℤ) : α) * y

/-- The loop `while (err > F_PI) err -= 2 * F_PI` of lines 311-313, run for at
most `fuel` iterations: the final `err` and the number of iterations run, or
`none` when the loop has not ended within `fuel` iterations. -/
def wrapAbove (F_PI : α) : Nat → α → Option (α × Nat)
  | 0, err => if err > F_PI then none else some (err, 0)
  | fuel + 1, err =>
    if err > F_PI then
      (wrapAbove F_PI fuel (err - 2 * F_PI)).map (fun r => (r.1, r.2 + 1))
    else some (err, 0)

/-- The loop `while (err < -F_PI) err += 2 * F_PI` of lines 314-316, run for at
most `fuel` iterations. -/
def wrapBelow (F_PI : α) : Nat → α → Option (α × Nat)
  | 0, err => if err < -F_PI then none else some (err, 0)
  | fuel + 1, err =>
    if err < -F_PI then
      (wrapBelow F_PI fuel (err + 2 * F_PI)).map (fun r => (r.1, r.2 + 1))
    else some (err, 0)

/-- The local `yaw_cmd_2_pi` of lines 301-307. -/
def yawCmd2Pi (F_PI yawCmd : α) : α :=
  if yawCmd > 0 then fmodf yawCmd (2 * F_PI) else -fmodf (-yawCmd) (2 * F_PI)

/-- `QuadControl::YawControl` with each of its two loops run for at most
`fuel` iterations: the returned yaw rate together with the total number of
loop iterations run, or `none` when a loop has not ended.  `F_PI` is the
constant of `Common.h`. -/
def YawControlTrace (fuel : Nat) (F_PI : α) (qc : QuadControl α) (yawCmd yaw : α) :
    Option (α × Nat) :=
  let yaw_cmd_2_pi := yawCmd2Pi F_PI yawCmd
  let err := yaw_cmd_2_pi - yaw
  (wrapAbove F_PI fuel err).bind fun r1 =>
    (wrapBelow F_PI fuel r1.1).map fun r2 =>
      let err := r2.1
      let yawRateCmd := qc.kpYaw * err
      (yawRateCmd, r1.2 + r2.2)

/-- `QuadControl::YawControl`: the returned yaw rate, `none` when a loop has
not ended within `fuel` iterations. -/
def YawControl (fuel : Nat) (F_PI : α) (qc : QuadControl α) (yawCmd yaw : α) : Option α :=
  (YawControlTrace fuel F_PI qc yawCmd yaw).map Prod.fst

/-! ## RunControl (lines 326-344) -/

/-- Modelled from the spec: `TrajectoryPoint` (`Trajectory.h`, not in the
source tree), "{ position: Vector3, velocity: Vector3, accel: Vector3,
attitude: Attitude, time: scalar }". -/
structure TrajectoryPoint (α : Type) where
  position : V3F α
  velocity : V3F α
  accel : V3F α
  attitude : Quaternion α
  time : α

/-- Modelled from the spec: the "VehicleState (external, read-only to the
core): estimated position, velocity, attitude, body rates", the members
`estPos`, `estVel`, `estAtt`, `estOmega` of the base class
(`BaseController.h`, not in the source tree). -/
structure VehicleState (α : Type) where
  estPos : V3F α
  estVel : V3F α
  estAtt : Quaternion α
  estOmega : V3F α

/-- The collective thrust after lines 333-334: clamped to the motor range
reduced by the margin `.1f * (maxMotorThrust - minMotorThrust)` on both sides,
times four. -/
def clampCollThrust (qc : QuadControl α) (collThrustCmd : α) : α :=
  let thrustMargin := 0.1 * (qc.maxMotorThrust - qc.minMotorThrust)
  CONSTRAIN collThrustCmd ((qc.minMotorThrust + thrustMargin) * 4)
    ((qc.maxMotorThrust - thrustMargin) * 4)

/-- `QuadControl::RunControl`.  `GetNextTrajectoryPoint` is the trajectory
sampler of the base class, `est` the state estimate held in the base class,
`c1` the static of `BodyRateControl`.  Returns the motor command, the updated
controller and the updated static; `none` when a loop of `YawControl` has not
ended within `fuel` iterations. -/
def RunControl (fuel : Nat) (sqrtf : α → α) (CONST_GRAVITY F_PI : α)
    (GetNextTrajectoryPoint : α → TrajectoryPoint α) (c1 : Option (V3F α))
    (qc : QuadControl α) (est : VehicleState α) (dt simTime : α) :
    Option (VehicleCommand α × QuadControl α × Option (V3F α)) :=
  let curTrajPoint := GetNextTrajectoryPoint simTime
  let r := AltitudeControl CONST_GRAVITY qc curTrajPoint.position.z curTrajPoint.velocity.z
    est.estPos.z est.estVel.z est.estAtt curTrajPoint.accel.z dt
  let collThrustCmd := r.1
  let qc := r.2
  let collThrustCmd := clampCollThrust qc collThrustCmd
  let desAcc := LateralPositionControl sqrtf qc curTrajPoint.position curTrajPoint.velocity
    est.estPos est.estVel curTrajPoint.accel
  let desOmega := RollPitchControl qc desAcc est.estAtt collThrustCmd
  (YawControl fuel F_PI qc curTrajPoint.attitude.Yaw est.estAtt.Yaw).map fun yawRate =>
    let desOmega : V3F α := { desOmega with z := yawRate }
    let m := BodyRateControl c1 qc desOmega est.estOmega
    let desMoment := m.1
    let g := GenerateMotorCommands sqrtf qc collThrustCmd desMoment
    (g.1, g.2, m.2)

/-! ### RunControl as the specification words it -/

/-- The motor command of one tick as the composition of the stages: "with
T0 = AltitudeControl(...), margin = 0.1*(maxMotorThrust - minMotorThrust) and
T = clamp(T0, 4*(minMotorThrust + margin), 4*(maxMotorThrust - margin)), the
result equals GenerateMotorCommands(T, BodyRateControl(w, estOmega)) where
w.x, w.y come from RollPitchControl(LateralPositionControl(...), estAtt, T) and
w.z = YawControl(traj yaw, estimated yaw)".  The stages after the altitude
stage run on the controller that stage leaves. -/
def specRunControl (fuel : Nat) (sqrtf : α → α) (CONST_GRAVITY F_PI : α)
    (traj : TrajectoryPoint α) (c1 : Option (V3F α)) (qc : QuadControl α)
    (est : VehicleState α) (dt : α) : Option (VehicleCommand α) :=
  let alt := AltitudeControl CONST_GRAVITY qc traj.position.z traj.velocity.z
    est.estPos.z est.estVel.z est.estAtt traj.accel.z dt
  let T0 := alt.1
  let margin := 0.1 * (qc.maxMotorThrust - qc.minMotorThrust)
  let T := CONSTRAIN T0 (4 * (qc.minMotorThrust + margin)) (4 * (qc.maxMotorThrust - margin))
  let rp := RollPitchControl alt.2
    (LateralPositionControl sqrtf alt.2 traj.position traj.velocity est.estPos est.estVel
      traj.accel) est.estAtt T
  (YawControl fuel F_PI alt.2 traj.attitude.Yaw est.estAtt.Yaw).map fun wz =>
    (GenerateMotorCommands sqrtf alt.2 T
      (BodyRateControl c1 alt.2 ⟨rp.x, rp.y, wz⟩ est.estOmega).1).1

end Yaw

/-- A trajectory point 5 m up, moving north at 1 m/s, level with yaw 0. -/
def sampleTraj : TrajectoryPoint α :=
  { position := ⟨1, 2, -5⟩, velocity := ⟨1, 0, 0⟩, accel := ⟨0, 0, 0⟩,
    attitude := levelAttitude, time := 0 }

/-- A state estimate: level, at rest half a metre below the sample trajectory
point. -/
def sampleState : VehicleState α :=
  { estPos := ⟨1, 2, -4.5⟩, estVel := ⟨0, 0, 0⟩, estAtt := levelAttitude, estOmega := ⟨0, 0, 0⟩ }

/-- The sample controller with other body-rate gains, as after the
configuration has been changed or as a second controller instance. -/
def regainedQuad : QuadControl α := { (sampleQuad : QuadControl α) with kpPQR := ⟨1, 2, 3⟩ }

/-- An attitude rolled about the x axis by the angle with cosine 0.6 and
sine 0.8, so that `R(2,2) = 0.6`. -/
def tiltedAttitude : Quaternion α :=
  { RotationMatrix_IwrtB := ![![1, 0, 0], ![0, 0.6, -0.8], ![0, 0.8, 0.6]], Yaw := 0 }

end StageDefs

/-! ## Basic facts -/

section Lemmas

variable {α : Type} [LinearOrderedField α]

lemma CONSTRAIN_ge (a low high : α) : low ≤ CONSTRAIN a low high :=
  le_max_left _ _

lemma CONSTRAIN_le {low high : α} (a : α) (h : low ≤ high) : CONSTRAIN a low high ≤ high :=
  max_le h (min_le_right _ _)

lemma CONSTRAIN_eq_self {a low high : α} (h1 : low ≤ a) (h2 : a ≤ high) :
    CONSTRAIN a low high = a := by
  unfold CONSTRAIN
  rw [min_eq_left h2, max_eq_right h1]

lemma CONSTRAIN_eq_low {a low high : α} (h : low ≤ high) (h1 : a ≤ low) :
    CONSTRAIN a low high = low := by
  unfold CONSTRAIN
  rw [min_eq_left (h1.trans h), max_eq_left h1]

lemma CONSTRAIN_eq_high {a low high : α} (h : low ≤ high) (h1 : high ≤ a) :
    CONSTRAIN a low high = high := by
  unfold CONSTRAIN
  rw [min_eq_right h1, max_eq_right h]

lemma motorThrusts_zero_moment (sqrtf : α → α) (qc : QuadControl α) (T : α) (i : Fin 4) :
    motorThrusts sqrtf qc T ⟨0, 0, 0⟩ i = T / 4 := by
  fin_cases i <;> simp [motorThrusts] <;> norm_num <;> ring

@[simp] lemma GenerateMotorCommands_thrusts (sqrtf : α → α) (qc : QuadControl α) (T : α)
    (M : V3F α) (i : Fin 4) :
    (GenerateMotorCommands sqrtf qc T M).1.desiredThrustsN i =
      CONSTRAIN (motorThrusts sqrtf qc T M i) qc.minMotorThrust qc.maxMotorThrust := by
  fin_cases i <;> rfl

namespace V3F

@[simp] lemma add_x (a b : V3F α) : (a + b).x = a.x + b.x := rfl
@[simp] lemma add_y (a b : V3F α) : (a + b).y = a.y + b.y := rfl
@[simp] lemma add_z (a b : V3F α) : (a + b).z = a.z + b.z := rfl
@[simp] lemma sub_x (a b : V3F α) : (a - b).x = a.x - b.x := rfl
@[simp] lemma sub_y (a b : V3F α) : (a - b).y = a.y - b.y := rfl
@[simp] lemma sub_z (a b : V3F α) : (a - b).z = a.z - b.z := rfl
@[simp] lemma mul_x (a b : V3F α) : (a * b).x = a.x * b.x := rfl
@[simp] lemma mul_y (a b : V3F α) : (a * b).y = a.y * b.y := rfl
@[simp] lemma mul_z (a b : V3F α) : (a * b).z = a.z * b.z := rfl
@[simp] lemma smul_x (a : V3F α) (s : α) : (a * s).x = a.x * s := rfl
@[simp] lemma smul_y (a : V3F α) (s : α) : (a * s).y = a.y * s := rfl
@[simp] lemma smul_z (a : V3F α) (s : α) : (a * s).z = a.z * s := rfl

end V3F

lemma IsSqrt.nonneg {sqrtf : α → α} (hs : IsSqrt sqrtf) {x : α} (hx : 0 ≤ x) : 0 ≤ sqrtf x :=
  (hs x hx).1

lemma IsSqrt.mul_self {sqrtf : α → α} (hs : IsSqrt sqrtf) {x : α} (hx : 0 ≤ x) :
    sqrtf x * sqrtf x = x :=
  (hs x hx).2

/-- A non-negative number whose square is `x` is the value of `sqrtf x`. -/
lemma IsSqrt.eq_of_mul_self {sqrtf : α → α} (hs : IsSqrt sqrtf) {x y : α} (hy : 0 ≤ y)
    (h : y * y = x) : sqrtf x = y := by
  have hx : 0 ≤ x := h ▸ mul_self_nonneg y
  have h1 := hs.nonneg hx
  have h2 := hs.mul_self hx
  nlinarith [mul_self_nonneg (sqrtf x - y), mul_nonneg h1 hy]

lemma IsSqrt.eq_zero_iff {sqrtf : α → α} (hs : IsSqrt sqrtf) {x : α} (hx : 0 ≤ x) :
    sqrtf x = 0 ↔ x = 0 := by
  constructor
  · intro h
    have := hs.mul_self hx
    rw [h, mul_zero] at this
    exact this.symm
  · intro h
    exact hs.eq_of_mul_self le_rfl (by rw [h, mul_zero])

lemma isSqrt_real : IsSqrt Real.sqrt :=
  fun x hx => ⟨Real.sqrt_nonneg x, Real.mul_self_sqrt hx⟩

lemma sumsq_nonneg (x y z : α) : 0 ≤ x * x + y * y + z * z :=
  add_nonneg (add_nonneg (mul_self_nonneg x) (mul_self_nonneg y)) (mul_self_nonneg z)

lemma V3F.mag_nonneg {sqrtf : α → α} (hs : IsSqrt sqrtf) (v : V3F α) : 0 ≤ v.mag sqrtf :=
  hs.nonneg (sumsq_nonneg _ _ _)

lemma V3F.mag_eq {sqrtf : α → α} (hs : IsSqrt sqrtf) (v : V3F α) {m : α} (hm : 0 ≤ m)
    (h : m * m = v.x * v.x + v.y * v.y + v.z * v.z) : v.mag sqrtf = m :=
  hs.eq_of_mul_self hm h

lemma V3F.mag_eq_zero_iff {sqrtf : α → α} (hs : IsSqrt sqrtf) (v : V3F α) :
    v.mag sqrtf = 0 ↔ v.x = 0 ∧ v.y = 0 ∧ v.z = 0 := by
  unfold V3F.mag
  rw [hs.eq_zero_iff (sumsq_nonneg _ _ _)]
  constructor
  · intro h
    have hx := mul_self_nonneg v.x
    have hy := mul_self_nonneg v.y
    have hz := mul_self_nonneg v.z
    refine ⟨?_, ?_, ?_⟩ <;> apply mul_self_eq_zero.mp <;> linarith
  · rintro ⟨h1, h2, h3⟩
    simp [h1, h2, h3]

/-- Scaling by a non-negative factor scales the magnitude. -/
lemma V3F.mag_smul {sqrtf : α → α} (hs : IsSqrt sqrtf) (v : V3F α) {k : α} (hk : 0 ≤ k) :
    (v * k).mag sqrtf = k * v.mag sqrtf := by
  apply V3F.mag_eq hs _ (mul_nonneg hk (V3F.mag_nonneg hs v))
  have h := hs.mul_self (sumsq_nonneg v.x v.y v.z)
  simp only [V3F.smul_x, V3F.smul_y, V3F.smul_z]
  unfold V3F.mag
  linear_combination (k * k) * h

/-- Normalising and scaling to `s` is scaling by `s / |v|`. -/
lemma V3F.norm_smul {sqrtf : α → α} (hs : IsSqrt sqrtf) (v : V3F α) (s : α) :
    v.norm sqrtf * s = v * (s / v.mag sqrtf) := by
  unfold V3F.norm
  split_ifs with h
  · obtain ⟨h1, h2, h3⟩ := (V3F.mag_eq_zero_iff hs v).mp h
    ext <;> simp [V3F.zero, h1, h2, h3]
  · ext <;> simp <;> field_simp

lemma CONSTRAIN_zero_eq_min {a M : α} (ha : 0 ≤ a) (hM : 0 ≤ M) :
    CONSTRAIN a 0 M = min a M := by
  unfold CONSTRAIN
  exact max_eq_right (le_min ha hM)

lemma magXY_nonneg {sqrtf : α → α} (hs : IsSqrt sqrtf) (v : α × α) : 0 ≤ magXY sqrtf v :=
  hs.nonneg (add_nonneg (mul_self_nonneg _) (mul_self_nonneg _))

lemma magXY_eq_zero_iff {sqrtf : α → α} (hs : IsSqrt sqrtf) (v : α × α) :
    magXY sqrtf v = 0 ↔ v = (0, 0) := by
  unfold magXY
  rw [hs.eq_zero_iff (add_nonneg (mul_self_nonneg _) (mul_self_nonneg _))]
  constructor
  · intro h
    have h1 := mul_self_nonneg v.1
    have h2 := mul_self_nonneg v.2
    ext
    · exact mul_self_eq_zero.mp (by linarith)
    · exact mul_self_eq_zero.mp (by linarith)
  · intro h
    simp [h]

lemma V3F.mag_of_z_zero (sqrtf : α → α) (w : V3F α) (hz : w.z = 0) :
    w.mag sqrtf = magXY sqrtf (w.x, w.y) := by
  simp [V3F.mag, magXY, hz]

/-- The code's normalise-and-scale on a vector without vertical part is the
rescaling of its horizontal part. -/
lemma V3F.norm_smul_xy {sqrtf : α → α} (hs : IsSqrt sqrtf) (w : V3F α) (hz : w.z = 0) (s : α) :
    ((w.norm sqrtf * s).x, (w.norm sqrtf * s).y) = rescaleXY sqrtf (w.x, w.y) s := by
  rw [V3F.norm_smul hs, V3F.mag_of_z_zero sqrtf w hz]
  unfold rescaleXY
  split_ifs with h
  · have hx : w.x = 0 := congrArg Prod.fst h
    have hy : w.y = 0 := congrArg Prod.snd h
    simp [hx, hy]
  · simp [mul_comm]

lemma magXY_rescaleXY {sqrtf : α → α} (hs : IsSqrt sqrtf) (v : α × α) {m : α} (hm : 0 ≤ m)
    (hv : v ≠ (0, 0)) : magXY sqrtf (rescaleXY sqrtf v m) = m := by
  have h0 : magXY sqrtf v ≠ 0 := fun h => hv ((magXY_eq_zero_iff hs v).mp h)
  have hsq : magXY sqrtf v * magXY sqrtf v = v.1 * v.1 + v.2 * v.2 :=
    hs.mul_self (add_nonneg (mul_self_nonneg _) (mul_self_nonneg _))
  unfold rescaleXY
  rw [if_neg hv]
  apply hs.eq_of_mul_self hm
  show m * m = m / magXY sqrtf v * v.1 * (m / magXY sqrtf v * v.1)
      + m / magXY sqrtf v * v.2 * (m / magXY sqrtf v * v.2)
  have : m / magXY sqrtf v * v.1 * (m / magXY sqrtf v * v.1)
      + m / magXY sqrtf v * v.2 * (m / magXY sqrtf v * v.2)
      = m * m * (v.1 * v.1 + v.2 * v.2) / (magXY sqrtf v * magXY sqrtf v) := by
    field_simp
    ring
  rw [this, ← hsq]
  field_simp

lemma magXY_rescaleXY_le {sqrtf : α → α} (hs : IsSqrt sqrtf) (v : α × α) {m M : α}
    (hm : 0 ≤ m) (hmM : m ≤ M) : magXY sqrtf (rescaleXY sqrtf v m) ≤ M := by
  by_cases hv : v = (0, 0)
  · have h0 : magXY sqrtf (rescaleXY sqrtf v m) = 0 := by
      rw [magXY_eq_zero_iff hs]
      simp [rescaleXY, hv]
    rw [h0]
    exact hm.trans hmM
  · rw [magXY_rescaleXY hs v hm hv]
    exact hmM

lemma rescaleXY_self {sqrtf : α → α} (hs : IsSqrt sqrtf) (v : α × α) :
    rescaleXY sqrtf v (magXY sqrtf v) = v := by
  unfold rescaleXY
  split_ifs with h
  · exact h.symm
  · have h0 : magXY sqrtf v ≠ 0 := fun h1 => h ((magXY_eq_zero_iff hs v).mp h1)
    ext <;> simp [div_self h0]

lemma velCmdConstrained_xy {sqrtf : α → α} (hs : IsSqrt sqrtf) (qc : QuadControl α)
    (velCmd : V3F α) (hM : 0 ≤ qc.maxSpeedXY) :
    ((velCmdConstrained sqrtf qc velCmd).x, (velCmdConstrained sqrtf qc velCmd).y)
      = specVelXY sqrtf qc velCmd := by
  unfold velCmdConstrained specVelXY
  simp only []
  rw [V3F.norm_smul_xy hs _ rfl, CONSTRAIN_zero_eq_min (V3F.mag_nonneg hs _) hM,
    V3F.mag_of_z_zero sqrtf _ rfl]

lemma lateralAccelCmd_z (sqrtf : α → α) (qc : QuadControl α)
    (posCmd velCmd pos vel accelCmdFF : V3F α) :
    (lateralAccelCmd sqrtf qc posCmd velCmd pos vel accelCmdFF).z = 0 := by
  simp [lateralAccelCmd]

lemma lateralAccelCmd_xy {sqrtf : α → α} (hs : IsSqrt sqrtf) (qc : QuadControl α)
    (posCmd velCmd pos vel accelCmdFF : V3F α) (hM : 0 ≤ qc.maxSpeedXY) :
    ((lateralAccelCmd sqrtf qc posCmd velCmd pos vel accelCmdFF).x,
      (lateralAccelCmd sqrtf qc posCmd velCmd pos vel accelCmdFF).y)
      = specAccelXY sqrtf qc posCmd velCmd pos vel accelCmdFF := by
  have h := velCmdConstrained_xy hs qc velCmd hM
  unfold specAccelXY
  rw [← h]
  simp [lateralAccelCmd]

end Lemmas

/-! ## Motor mixer -/

section Mixer

variable {α : Type} [LinearOrderedField α]

/-- C1: whenever `minMotorThrust ≤ maxMotorThrust`, each of the four values
`desiredThrustsN[0..3]` returned by `GenerateMotorCommands` lies in the closed
interval `[minMotorThrust, maxMotorThrust]`, for every collective thrust,
moment, arm length and `kappa`. -/
theorem GenerateMotorCommands_within_limits (sqrtf : α → α) (qc : QuadControl α)
    (collThrustCmd : α) (momentCmd : V3F α)
    (h : qc.minMotorThrust ≤ qc.maxMotorThrust) (i : Fin 4) :
    qc.minMotorThrust ≤ (GenerateMotorCommands sqrtf qc collThrustCmd momentCmd).1.desiredThrustsN i
      ∧ (GenerateMotorCommands sqrtf qc collThrustCmd momentCmd).1.desiredThrustsN i
          ≤ qc.maxMotorThrust := by
  rw [GenerateMotorCommands_thrusts]
  exact ⟨CONSTRAIN_ge _ _ _, CONSTRAIN_le _ h⟩

/-- C1 at the sample controller: thrust 40 N with moment (1, 0, 0) saturates
motor 1, whose command still lies within the motor limits. -/
theorem GenerateMotorCommands_within_limits_witness :
    (sampleQuad : QuadControl ℝ).minMotorThrust ≤ (sampleQuad : QuadControl ℝ).maxMotorThrust
      ∧ (sampleQuad : QuadControl ℝ).minMotorThrust
          ≤ (GenerateMotorCommands Real.sqrt sampleQuad 40 ⟨1, 0, 0⟩).1.desiredThrustsN 0
      ∧ (GenerateMotorCommands Real.sqrt (sampleQuad : QuadControl ℝ) 40 ⟨1, 0, 0⟩).1.desiredThrustsN 0
          ≤ (sampleQuad : QuadControl ℝ).maxMotorThrust :=
  ⟨by norm_num [sampleQuad],
    GenerateMotorCommands_within_limits Real.sqrt sampleQuad 40 ⟨1, 0, 0⟩
      (by norm_num [sampleQuad]) 0⟩

/-- C2: with `l = L / sqrtf 2`, the four outputs are, in this order, the
per-motor clamps into `[minMotorThrust, maxMotorThrust]` of
`0.25 * (T + Mx/l + My/l + Mz/(-kappa))`, `0.25 * (T - Mx/l + My/l - Mz/(-kappa))`,
`0.25 * (T + Mx/l - My/l - Mz/(-kappa))` and `0.25 * (T - Mx/l - My/l + Mz/(-kappa))`;
each output depends on its own unclamped value and the two limits only. -/
theorem GenerateMotorCommands_formula (sqrtf : α → α) (qc : QuadControl α)
    (T Mx My Mz : α) :
    (GenerateMotorCommands sqrtf qc T ⟨Mx, My, Mz⟩).1.desiredThrustsN 0
        = CONSTRAIN (0.25 * (T + Mx / (qc.L / sqrtf 2) + My / (qc.L / sqrtf 2) + Mz / (-qc.kappa)))
            qc.minMotorThrust qc.maxMotorThrust
    ∧ (GenerateMotorCommands sqrtf qc T ⟨Mx, My, Mz⟩).1.desiredThrustsN 1
        = CONSTRAIN (0.25 * (T - Mx / (qc.L / sqrtf 2) + My / (qc.L / sqrtf 2) - Mz / (-qc.kappa)))
            qc.minMotorThrust qc.maxMotorThrust
    ∧ (GenerateMotorCommands sqrtf qc T ⟨Mx, My, Mz⟩).1.desiredThrustsN 2
        = CONSTRAIN (0.25 * (T + Mx / (qc.L / sqrtf 2) - My / (qc.L / sqrtf 2) - Mz / (-qc.kappa)))
            qc.minMotorThrust qc.maxMotorThrust
    ∧ (GenerateMotorCommands sqrtf qc T ⟨Mx, My, Mz⟩).1.desiredThrustsN 3
        = CONSTRAIN (0.25 * (T - Mx / (qc.L / sqrtf 2) - My / (qc.L / sqrtf 2) + Mz / (-qc.kappa)))
            qc.minMotorThrust qc.maxMotorThrust :=
  ⟨rfl, rfl, rfl, rfl⟩

/-- C3: with moment `(0,0,0)` the four unclamped motor thrusts all equal
`T/4`, so the four returned values are equal to each other, and they equal
`T/4` exactly whenever `minMotorThrust ≤ T/4 ≤ maxMotorThrust`. -/
theorem GenerateMotorCommands_zero_moment (sqrtf : α → α) (qc : QuadControl α) (T : α)
    (i j : Fin 4) :
    motorThrusts sqrtf qc T ⟨0, 0, 0⟩ i = T / 4
    ∧ (GenerateMotorCommands sqrtf qc T ⟨0, 0, 0⟩).1.desiredThrustsN i
        = (GenerateMotorCommands sqrtf qc T ⟨0, 0, 0⟩).1.desiredThrustsN j
    ∧ (qc.minMotorThrust ≤ T / 4 → T / 4 ≤ qc.maxMotorThrust →
        (GenerateMotorCommands sqrtf qc T ⟨0, 0, 0⟩).1.desiredThrustsN i = T / 4) := by
  have hf : ∀ k : Fin 4, motorThrusts sqrtf qc T ⟨0, 0, 0⟩ k = T / 4 := by
    intro k
    fin_cases k <;> simp [motorThrusts] <;> norm_num <;> ring
  refine ⟨hf i, ?_, ?_⟩
  · rw [GenerateMotorCommands_thrusts, GenerateMotorCommands_thrusts, hf i, hf j]
  · intro h1 h2
    rw [GenerateMotorCommands_thrusts, hf i]
    exact CONSTRAIN_eq_self h1 h2

/-- C3 at the sample controller: a collective thrust of 4.9 N with zero
moment gives 1.225 N on motor 3. -/
theorem GenerateMotorCommands_zero_moment_witness :
    (sampleQuad : QuadControl ℝ).minMotorThrust ≤ 4.9 / 4
      ∧ (4.9 : ℝ) / 4 ≤ (sampleQuad : QuadControl ℝ).maxMotorThrust
      ∧ (GenerateMotorCommands Real.sqrt (sampleQuad : QuadControl ℝ) 4.9 ⟨0, 0, 0⟩).1.desiredThrustsN 2
          = 4.9 / 4 :=
  ⟨by norm_num [sampleQuad], by norm_num [sampleQuad],
    (GenerateMotorCommands_zero_moment Real.sqrt sampleQuad 4.9 2 0).2.2
      (by norm_num [sampleQuad]) (by norm_num [sampleQuad])⟩

end Mixer

/-! ## Altitude controller -/

section Altitude

variable {α : Type} [LinearOrderedField α]

lemma limitVelZCmd_of_mem {qc : QuadControl α} {velZCmd : α}
    (h1 : -qc.maxAscentRate ≤ velZCmd) (h2 : velZCmd ≤ qc.maxDescentRate) :
    limitVelZCmd qc velZCmd = velZCmd := by
  unfold limitVelZCmd
  rw [if_neg (not_lt.mpr h1), if_neg (not_lt.mpr h2)]

lemma limitVelZCmd_eq_CONSTRAIN (qc : QuadControl α) (velZCmd : α) :
    limitVelZCmd qc velZCmd = CONSTRAIN velZCmd (-qc.maxAscentRate) qc.maxDescentRate := by
  unfold limitVelZCmd
  split_ifs with h1 h2
  · rfl
  · rfl
  · exact (CONSTRAIN_eq_self (not_lt.mp h1) (not_lt.mp h2)).symm

/-- C4: for `velZCmd` inside `[-maxAscentRate, maxDescentRate]` the call changes
`integratedAltitudeError` from `I` to `I + (posZCmd - posZ) * dt`, not clamped,
and returns `mass * (g - (kpPosZ*(posZCmd - posZ) + kpVelZ*(velZCmd - velZ)
+ KiPosZ*(I + (posZCmd - posZ)*dt) + accelZCmd)) / R(2,2)`: the integral term uses
the updated accumulator. -/
theorem AltitudeControl_formula (g : α) (qc : QuadControl α)
    (posZCmd velZCmd posZ velZ : α) (attitude : Quaternion α) (accelZCmd dt : α)
    (h1 : -qc.maxAscentRate ≤ velZCmd) (h2 : velZCmd ≤ qc.maxDescentRate) :
    (AltitudeControl g qc posZCmd velZCmd posZ velZ attitude accelZCmd dt).2.integratedAltitudeError
        = qc.integratedAltitudeError + (posZCmd - posZ) * dt
    ∧ (AltitudeControl g qc posZCmd velZCmd posZ velZ attitude accelZCmd dt).1
        = qc.mass * (g - (qc.kpPosZ * (posZCmd - posZ) + qc.kpVelZ * (velZCmd - velZ)
            + qc.KiPosZ * (qc.integratedAltitudeError + (posZCmd - posZ) * dt) + accelZCmd))
          / attitude.RotationMatrix_IwrtB 2 2 := by
  refine ⟨rfl, ?_⟩
  simp only [AltitudeControl, limitVelZCmd_of_mem h1 h2, mul_div_assoc]

/-- C4 at the sample controller: one metre above the commanded altitude,
descending at the commanded 1 m/s, level, `dt = 0.02`. -/
theorem AltitudeControl_formula_witness :
    -(sampleQuad : QuadControl ℚ).maxAscentRate ≤ 1
      ∧ (1 : ℚ) ≤ (sampleQuad : QuadControl ℚ).maxDescentRate
      ∧ (AltitudeControl 9.81 (sampleQuad : QuadControl ℚ) (-5) 1 (-6) 1 levelAttitude 0 0.02).2.integratedAltitudeError
          = (sampleQuad : QuadControl ℚ).integratedAltitudeError + (-5 - -6) * 0.02
      ∧ (AltitudeControl 9.81 (sampleQuad : QuadControl ℚ) (-5) 1 (-6) 1 levelAttitude 0 0.02).1
          = (sampleQuad : QuadControl ℚ).mass * (9.81 - ((sampleQuad : QuadControl ℚ).kpPosZ * (-5 - -6)
              + (sampleQuad : QuadControl ℚ).kpVelZ * (1 - 1)
              + (sampleQuad : QuadControl ℚ).KiPosZ
                  * ((sampleQuad : QuadControl ℚ).integratedAltitudeError + (-5 - -6) * 0.02) + 0))
            / (levelAttitude : Quaternion ℚ).RotationMatrix_IwrtB 2 2 :=
  ⟨by norm_num [sampleQuad], by norm_num [sampleQuad],
    AltitudeControl_formula 9.81 sampleQuad (-5) 1 (-6) 1 levelAttitude 0 0.02
      (by norm_num [sampleQuad]) (by norm_num [sampleQuad])⟩

/-- C5 fails for a controller whose `maxAscentRate` is negative: with
`maxAscentRate = -1` and `maxDescentRate = 2` the command `velZCmd = 0` lies
below `-maxAscentRate = 1` and is replaced by 1, so the altitude-hold call
returns `0.5 * (9.81 - 9 * 1) = 0.405`, not the hover thrust `0.5 * 9.81`. -/
theorem AltitudeControl_hold_counterexample :
    (negAscentQuad : QuadControl ℚ).integratedAltitudeError = 0
      ∧ (levelAttitude : Quaternion ℚ).RotationMatrix_IwrtB 2 2 = 1
      ∧ (AltitudeControl 9.81 (negAscentQuad : QuadControl ℚ) (-5) 0 (-5) 0 levelAttitude 0 0.02).1
          = 0.405
      ∧ (AltitudeControl 9.81 (negAscentQuad : QuadControl ℚ) (-5) 0 (-5) 0 levelAttitude 0 0.02).1
          ≠ (negAscentQuad : QuadControl ℚ).mass * 9.81 := by
  have h : (AltitudeControl 9.81 (negAscentQuad : QuadControl ℚ) (-5) 0 (-5) 0 levelAttitude 0 0.02).1
      = 0.405 := by
    norm_num [AltitudeControl, limitVelZCmd, CONSTRAIN, negAscentQuad, sampleQuad, levelAttitude]
  refine ⟨rfl, by simp [levelAttitude], h, ?_⟩
  rw [h]
  norm_num [negAscentQuad, sampleQuad]

/-- C5 (amended): for every controller with `maxAscentRate ≥ 0`,
`maxDescentRate ≥ 0` and `integratedAltitudeError = 0`, every `dt`, and every
call with `posZCmd = posZ`, `velZCmd = velZ = 0`, `accelZCmd = 0` and a level
attitude (`R(2,2) = 1`), the returned thrust is `mass * gravity` and
`integratedAltitudeError` is still 0 after the call. -/
theorem AltitudeControl_hold (g : α) (qc : QuadControl α) (posZ dt : α)
    (attitude : Quaternion α)
    (hI : qc.integratedAltitudeError = 0)
    (hA : 0 ≤ qc.maxAscentRate) (hD : 0 ≤ qc.maxDescentRate)
    (hR : attitude.RotationMatrix_IwrtB 2 2 = 1) :
    (AltitudeControl g qc posZ 0 posZ 0 attitude 0 dt).1 = qc.mass * g
    ∧ (AltitudeControl g qc posZ 0 posZ 0 attitude 0 dt).2.integratedAltitudeError = 0 := by
  have hv : limitVelZCmd qc 0 = 0 := limitVelZCmd_of_mem (neg_nonpos.mpr hA) hD
  simp [AltitudeControl, hv, hI, hR]

/-- C5 (amended) at the scenario of the specification: `posZCmd = posZ = -5`,
`dt = 0.02`, sample controller, level attitude. -/
theorem AltitudeControl_hold_witness :
    (sampleQuad : QuadControl ℚ).integratedAltitudeError = 0
      ∧ 0 ≤ (sampleQuad : QuadControl ℚ).maxAscentRate
      ∧ 0 ≤ (sampleQuad : QuadControl ℚ).maxDescentRate
      ∧ (levelAttitude : Quaternion ℚ).RotationMatrix_IwrtB 2 2 = 1
      ∧ (AltitudeControl 9.81 (sampleQuad : QuadControl ℚ) (-5) 0 (-5) 0 levelAttitude 0 0.02).1
          = (sampleQuad : QuadControl ℚ).mass * 9.81
      ∧ (AltitudeControl 9.81 (sampleQuad : QuadControl ℚ) (-5) 0 (-5) 0 levelAttitude 0
            0.02).2.integratedAltitudeError = 0 :=
  ⟨rfl, by norm_num [sampleQuad], by norm_num [sampleQuad], by simp [levelAttitude],
    AltitudeControl_hold 9.81 sampleQuad (-5) 0.02 levelAttitude rfl
      (by norm_num [sampleQuad]) (by norm_num [sampleQuad]) (by simp [levelAttitude])⟩

/-- C6: when `-maxAscentRate ≤ maxDescentRate`, a call with `velZCmd` returns the
same thrust and leaves the same controller state (hence the same
`integratedAltitudeError`) as the call with `velZCmd` replaced by its clamp into
`[-maxAscentRate, maxDescentRate]`; every `velZCmd > maxDescentRate` behaves like
`maxDescentRate` and every `velZCmd < -maxAscentRate` like `-maxAscentRate`. -/
theorem AltitudeControl_velZCmd_clamp (g : α) (qc : QuadControl α)
    (posZCmd velZCmd posZ velZ : α) (attitude : Quaternion α) (accelZCmd dt : α)
    (h : -qc.maxAscentRate ≤ qc.maxDescentRate) :
    AltitudeControl g qc posZCmd velZCmd posZ velZ attitude accelZCmd dt
        = AltitudeControl g qc posZCmd (CONSTRAIN velZCmd (-qc.maxAscentRate) qc.maxDescentRate)
            posZ velZ attitude accelZCmd dt
    ∧ (qc.maxDescentRate < velZCmd →
        AltitudeControl g qc posZCmd velZCmd posZ velZ attitude accelZCmd dt
          = AltitudeControl g qc posZCmd qc.maxDescentRate posZ velZ attitude accelZCmd dt)
    ∧ (velZCmd < -qc.maxAscentRate →
        AltitudeControl g qc posZCmd velZCmd posZ velZ attitude accelZCmd dt
          = AltitudeControl g qc posZCmd (-qc.maxAscentRate) posZ velZ attitude accelZCmd dt) := by
  have key : ∀ v : α, AltitudeControl g qc posZCmd v posZ velZ attitude accelZCmd dt
      = AltitudeControl g qc posZCmd (CONSTRAIN v (-qc.maxAscentRate) qc.maxDescentRate)
          posZ velZ attitude accelZCmd dt := by
    intro v
    have hmem : limitVelZCmd qc (CONSTRAIN v (-qc.maxAscentRate) qc.maxDescentRate)
        = CONSTRAIN v (-qc.maxAscentRate) qc.maxDescentRate :=
      limitVelZCmd_of_mem (CONSTRAIN_ge _ _ _) (CONSTRAIN_le _ h)
    simp only [AltitudeControl, hmem, limitVelZCmd_eq_CONSTRAIN]
  refine ⟨key velZCmd, fun hhi => ?_, fun hlo => ?_⟩
  · rw [key velZCmd, CONSTRAIN_eq_high h hhi.le]
  · rw [key velZCmd, CONSTRAIN_eq_low h hlo.le]

/-- C6 at the sample controller (`maxDescentRate = 2`): a commanded descent
of 3 m/s gives the result of a commanded descent of 2 m/s. -/
theorem AltitudeControl_velZCmd_clamp_witness :
    -(sampleQuad : QuadControl ℚ).maxAscentRate ≤ (sampleQuad : QuadControl ℚ).maxDescentRate
      ∧ (sampleQuad : QuadControl ℚ).maxDescentRate < 3
      ∧ AltitudeControl 9.81 (sampleQuad : QuadControl ℚ) (-5) 3 (-6) 1 levelAttitude 0 0.02
          = AltitudeControl 9.81 (sampleQuad : QuadControl ℚ) (-5)
              (sampleQuad : QuadControl ℚ).maxDescentRate (-6) 1 levelAttitude 0 0.02 :=
  ⟨by norm_num [sampleQuad], by norm_num [sampleQuad],
    (AltitudeControl_velZCmd_clamp 9.81 sampleQuad (-5) 3 (-6) 1 levelAttitude 0 0.02
      (by norm_num [sampleQuad])).2.1 (by norm_num [sampleQuad])⟩

end Altitude

/-! ## Lateral position controller -/

section Lateral

variable {α : Type} [LinearOrderedField α]

lemma V3F.norm_smul_mag {sqrtf : α → α} (hs : IsSqrt sqrtf) (w : V3F α) :
    w.norm sqrtf * w.mag sqrtf = w := by
  rw [V3F.norm_smul hs]
  by_cases h : w.mag sqrtf = 0
  · obtain ⟨h1, h2, h3⟩ := (V3F.mag_eq_zero_iff hs w).mp h
    ext <;> simp [h1, h2, h3]
  · ext <;> simp [div_self h]

lemma magXY_real_three_four : magXY Real.sqrt ((3 : ℝ), (4 : ℝ)) = 5 :=
  isSqrt_real.eq_of_mul_self (by norm_num) (by norm_num)

/-- C7: for `maxSpeedXY ≥ 0` and `maxAccelXY ≥ 0` the returned `x, y` are the
acceleration `a` of the specification rescaled to magnitude
`min(|a|, maxAccelXY)`, where `a` is built from the velocity command `v'`
rescaled to `min(|velCmd_xy|, maxSpeedXY)`; `|v'| ≤ maxSpeedXY`; and when
`|velCmd_xy| ≤ maxSpeedXY` and `|a| ≤ maxAccelXY` the output is exactly `a`,
which then is `kpPosXY*(posCmd - pos) + kpVelXY*(velCmd - vel) + accelCmdFF`
on `x` and `y`. -/
theorem LateralPositionControl_refines_spec (sqrtf : α → α) (qc : QuadControl α)
    (posCmd velCmd pos vel accelCmdFF : V3F α)
    (hs : IsSqrt sqrtf) (hS : 0 ≤ qc.maxSpeedXY) (hA : 0 ≤ qc.maxAccelXY) :
    ((LateralPositionControl sqrtf qc posCmd velCmd pos vel accelCmdFF).x,
        (LateralPositionControl sqrtf qc posCmd velCmd pos vel accelCmdFF).y)
      = specLateralXY sqrtf qc posCmd velCmd pos vel accelCmdFF
    ∧ magXY sqrtf (specVelXY sqrtf qc velCmd) ≤ qc.maxSpeedXY
    ∧ (magXY sqrtf (velCmd.x, velCmd.y) ≤ qc.maxSpeedXY →
        magXY sqrtf (specAccelXY sqrtf qc posCmd velCmd pos vel accelCmdFF) ≤ qc.maxAccelXY →
        ((LateralPositionControl sqrtf qc posCmd velCmd pos vel accelCmdFF).x,
            (LateralPositionControl sqrtf qc posCmd velCmd pos vel accelCmdFF).y)
          = specAccelXY sqrtf qc posCmd velCmd pos vel accelCmdFF
        ∧ specAccelXY sqrtf qc posCmd velCmd pos vel accelCmdFF
          = (qc.kpPosXY * (posCmd.x - pos.x) + qc.kpVelXY * (velCmd.x - vel.x) + accelCmdFF.x,
             qc.kpPosXY * (posCmd.y - pos.y) + qc.kpVelXY * (velCmd.y - vel.y) + accelCmdFF.y)) := by
  have hz := lateralAccelCmd_z sqrtf qc posCmd velCmd pos vel accelCmdFF
  have hxy := lateralAccelCmd_xy hs qc posCmd velCmd pos vel accelCmdFF hS
  have hout : ((LateralPositionControl sqrtf qc posCmd velCmd pos vel accelCmdFF).x,
        (LateralPositionControl sqrtf qc posCmd velCmd pos vel accelCmdFF).y)
      = specLateralXY sqrtf qc posCmd velCmd pos vel accelCmdFF := by
    unfold LateralPositionControl specLateralXY
    simp only []
    rw [V3F.norm_smul_xy hs _ hz, CONSTRAIN_zero_eq_min (V3F.mag_nonneg hs _) hA,
      V3F.mag_of_z_zero sqrtf _ hz, hxy]
  refine ⟨hout, ?_, ?_⟩
  · exact magXY_rescaleXY_le hs _ (le_min (magXY_nonneg hs _) hS) (min_le_right _ _)
  · intro h1 h2
    constructor
    · rw [hout]
      unfold specLateralXY
      rw [min_eq_left h2, rescaleXY_self hs]
    · have hv : specVelXY sqrtf qc velCmd = (velCmd.x, velCmd.y) := by
        unfold specVelXY
        rw [min_eq_left h1, rescaleXY_self hs]
      simp [specAccelXY, hv]

/-- C7 at the sample controller: a velocity command of horizontal magnitude 5
(the speed limit), no position or velocity error on `x, y`, and feed-forward
`(3, 4)`: the output is `a = (3, 4)` on `x, y`. -/
theorem LateralPositionControl_refines_spec_witness :
    IsSqrt Real.sqrt
      ∧ 0 ≤ (sampleQuad : QuadControl ℝ).maxSpeedXY
      ∧ 0 ≤ (sampleQuad : QuadControl ℝ).maxAccelXY
      ∧ magXY Real.sqrt ((3 : ℝ), (4 : ℝ)) ≤ (sampleQuad : QuadControl ℝ).maxSpeedXY
      ∧ magXY Real.sqrt (specAccelXY Real.sqrt (sampleQuad : QuadControl ℝ)
            ⟨1, 2, 3⟩ ⟨3, 4, 7⟩ ⟨1, 2, 5⟩ ⟨3, 4, 1⟩ ⟨3, 4, 9⟩)
          ≤ (sampleQuad : QuadControl ℝ).maxAccelXY
      ∧ ((LateralPositionControl Real.sqrt (sampleQuad : QuadControl ℝ)
            ⟨1, 2, 3⟩ ⟨3, 4, 7⟩ ⟨1, 2, 5⟩ ⟨3, 4, 1⟩ ⟨3, 4, 9⟩).x,
          (LateralPositionControl Real.sqrt (sampleQuad : QuadControl ℝ)
            ⟨1, 2, 3⟩ ⟨3, 4, 7⟩ ⟨1, 2, 5⟩ ⟨3, 4, 1⟩ ⟨3, 4, 9⟩).y)
        = ((3 : ℝ), (4 : ℝ)) := by
  have h1 : magXY Real.sqrt ((3 : ℝ), (4 : ℝ)) ≤ (sampleQuad : QuadControl ℝ).maxSpeedXY := by
    rw [magXY_real_three_four]
    norm_num [sampleQuad]
  have ha : specAccelXY Real.sqrt (sampleQuad : QuadControl ℝ)
      ⟨1, 2, 3⟩ ⟨3, 4, 7⟩ ⟨1, 2, 5⟩ ⟨3, 4, 1⟩ ⟨3, 4, 9⟩ = (3, 4) := by
    norm_num [specAccelXY, specVelXY, rescaleXY, magXY_real_three_four, sampleQuad]
  have h2 : magXY Real.sqrt (specAccelXY Real.sqrt (sampleQuad : QuadControl ℝ)
      ⟨1, 2, 3⟩ ⟨3, 4, 7⟩ ⟨1, 2, 5⟩ ⟨3, 4, 1⟩ ⟨3, 4, 9⟩)
        ≤ (sampleQuad : QuadControl ℝ).maxAccelXY := by
    rw [ha, magXY_real_three_four]
    norm_num [sampleQuad]
  have h := ((LateralPositionControl_refines_spec Real.sqrt sampleQuad
      ⟨1, 2, 3⟩ ⟨3, 4, 7⟩ ⟨1, 2, 5⟩ ⟨3, 4, 1⟩ ⟨3, 4, 9⟩
      isSqrt_real (by norm_num [sampleQuad]) (by norm_num [sampleQuad])).2.2 h1 h2).1
  exact ⟨isSqrt_real, by norm_num [sampleQuad], by norm_num [sampleQuad], h1, h2, h.trans ha⟩

/-- C8: for `maxAccelXY ≥ 0` the magnitude of the returned vector is at most
`maxAccelXY`, and the returned vector is a non-negative scalar multiple of the
unclamped acceleration `accelCmd`, whatever the positions, velocities,
feed-forward and gains. -/
theorem LateralPositionControl_bounded (sqrtf : α → α) (qc : QuadControl α)
    (posCmd velCmd pos vel accelCmdFF : V3F α)
    (hs : IsSqrt sqrtf) (hA : 0 ≤ qc.maxAccelXY) :
    (LateralPositionControl sqrtf qc posCmd velCmd pos vel accelCmdFF).mag sqrtf ≤ qc.maxAccelXY
    ∧ ∃ k : α, 0 ≤ k ∧ LateralPositionControl sqrtf qc posCmd velCmd pos vel accelCmdFF
        = lateralAccelCmd sqrtf qc posCmd velCmd pos vel accelCmdFF * k := by
  have hm := V3F.mag_nonneg hs (lateralAccelCmd sqrtf qc posCmd velCmd pos vel accelCmdFF)
  have hc0 := CONSTRAIN_ge
    ((lateralAccelCmd sqrtf qc posCmd velCmd pos vel accelCmdFF).mag sqrtf) 0 qc.maxAccelXY
  have hc1 := CONSTRAIN_le
    ((lateralAccelCmd sqrtf qc posCmd velCmd pos vel accelCmdFF).mag sqrtf) hA
  have hk := div_nonneg hc0 hm
  have heq : LateralPositionControl sqrtf qc posCmd velCmd pos vel accelCmdFF
      = lateralAccelCmd sqrtf qc posCmd velCmd pos vel accelCmdFF
        * (CONSTRAIN ((lateralAccelCmd sqrtf qc posCmd velCmd pos vel accelCmdFF).mag sqrtf)
            0 qc.maxAccelXY
          / (lateralAccelCmd sqrtf qc posCmd velCmd pos vel accelCmdFF).mag sqrtf) := by
    unfold LateralPositionControl
    simp only []
    rw [V3F.norm_smul hs]
  refine ⟨?_, _, hk, heq⟩
  rw [heq, V3F.mag_smul hs _ hk]
  by_cases h0 : (lateralAccelCmd sqrtf qc posCmd velCmd pos vel accelCmdFF).mag sqrtf = 0
  · rw [h0, mul_zero]
    exact hA
  · rw [div_mul_cancel₀ _ h0]
    exact hc1

/-- C8 at the sample controller (`maxAccelXY = 12`): a position error of 10 m
on `x` asks for 300 m/s², and the returned magnitude stays within 12. -/
theorem LateralPositionControl_bounded_witness :
    IsSqrt Real.sqrt
      ∧ 0 ≤ (sampleQuad : QuadControl ℝ).maxAccelXY
      ∧ (LateralPositionControl Real.sqrt (sampleQuad : QuadControl ℝ)
            ⟨10, 0, -5⟩ ⟨0, 0, 0⟩ ⟨0, 0, -5⟩ ⟨0, 0, 0⟩ ⟨0, 0, 0⟩).mag Real.sqrt
          ≤ (sampleQuad : QuadControl ℝ).maxAccelXY :=
  ⟨isSqrt_real, by norm_num [sampleQuad],
    (LateralPositionControl_bounded Real.sqrt sampleQuad
      ⟨10, 0, -5⟩ ⟨0, 0, 0⟩ ⟨0, 0, -5⟩ ⟨0, 0, 0⟩ ⟨0, 0, 0⟩
      isSqrt_real (by norm_num [sampleQuad])).1⟩

/-- C9: the `z` component of the returned vector is 0 for every input, and
replacing `posCmd.z`, `velCmd.z` and `accelCmdFF.z` by any other values does
not change the returned vector. -/
theorem LateralPositionControl_no_vertical_coupling (sqrtf : α → α) (qc : QuadControl α)
    (posCmd velCmd pos vel accelCmdFF : V3F α) (pz vz az : α) :
    (LateralPositionControl sqrtf qc posCmd velCmd pos vel accelCmdFF).z = 0
    ∧ LateralPositionControl sqrtf qc { posCmd with z := pz } { velCmd with z := vz } pos vel
          { accelCmdFF with z := az }
        = LateralPositionControl sqrtf qc posCmd velCmd pos vel accelCmdFF := by
  refine ⟨?_, rfl⟩
  have hz := lateralAccelCmd_z sqrtf qc posCmd velCmd pos vel accelCmdFF
  unfold LateralPositionControl V3F.norm
  simp only []
  split_ifs <;> simp [V3F.zero, hz]

/-- C10 fails when the current horizontal speed exceeds `maxSpeedXY`: at the
sample controller (`maxSpeedXY = 5`, `kpVelXY = 12`, `maxAccelXY = 12`) with
`p = (0,0,0)` and `v = (6,8,0)` the command is cut down to `(3,4,0)`, the
acceleration is `12 * ((3,4,0) - (6,8,0)) = (-36,-48,0)` and the result is
`(-7.2, -9.6, 0)`, not `(0,0,0)`. -/
theorem LateralPositionControl_fixed_point_counterexample :
    LateralPositionControl Real.sqrt (sampleQuad : QuadControl ℝ)
        ⟨0, 0, 0⟩ ⟨6, 8, 0⟩ ⟨0, 0, 0⟩ ⟨6, 8, 0⟩ ⟨0, 0, 0⟩ = ⟨-7.2, -9.6, 0⟩
      ∧ LateralPositionControl Real.sqrt (sampleQuad : QuadControl ℝ)
        ⟨0, 0, 0⟩ ⟨6, 8, 0⟩ ⟨0, 0, 0⟩ ⟨6, 8, 0⟩ ⟨0, 0, 0⟩ ≠ ⟨0, 0, 0⟩ := by
  have hv : velCmdConstrained Real.sqrt (sampleQuad : QuadControl ℝ) ⟨6, 8, 0⟩ = ⟨3, 4, 0⟩ := by
    unfold velCmdConstrained
    simp only []
    rw [V3F.norm_smul isSqrt_real,
      V3F.mag_eq isSqrt_real ⟨6, 8, 0⟩ (show (0 : ℝ) ≤ 10 by norm_num) (by norm_num)]
    ext <;> norm_num [CONSTRAIN, sampleQuad]
  have ha : lateralAccelCmd Real.sqrt (sampleQuad : QuadControl ℝ)
      ⟨0, 0, 0⟩ ⟨6, 8, 0⟩ ⟨0, 0, 0⟩ ⟨6, 8, 0⟩ ⟨0, 0, 0⟩ = ⟨-36, -48, 0⟩ := by
    unfold lateralAccelCmd
    simp only []
    rw [hv]
    ext <;> norm_num [sampleQuad]
  have hout : LateralPositionControl Real.sqrt (sampleQuad : QuadControl ℝ)
      ⟨0, 0, 0⟩ ⟨6, 8, 0⟩ ⟨0, 0, 0⟩ ⟨6, 8, 0⟩ ⟨0, 0, 0⟩ = ⟨-7.2, -9.6, 0⟩ := by
    unfold LateralPositionControl
    simp only []
    rw [ha, V3F.norm_smul isSqrt_real,
      V3F.mag_eq isSqrt_real ⟨-36, -48, 0⟩ (show (0 : ℝ) ≤ 60 by norm_num) (by norm_num)]
    ext <;> norm_num [CONSTRAIN, sampleQuad]
  refine ⟨hout, ?_⟩
  rw [hout]
  intro h
  have hx := congrArg V3F.x h
  norm_num at hx

/-- C10 (amended): for every position `p`, every velocity `v` whose horizontal
speed does not exceed `maxSpeedXY`, and every gain/limit configuration,
`LateralPositionControl(p, v, p, v, (0,0,0))` is `(0,0,0)`. -/
theorem LateralPositionControl_fixed_point (sqrtf : α → α) (qc : QuadControl α)
    (p v : V3F α) (hs : IsSqrt sqrtf)
    (hv : V3F.mag sqrtf ⟨v.x, v.y, 0⟩ ≤ qc.maxSpeedXY) :
    LateralPositionControl sqrtf qc p v p v ⟨0, 0, 0⟩ = ⟨0, 0, 0⟩ := by
  have hc : velCmdConstrained sqrtf qc v = ⟨v.x, v.y, 0⟩ := by
    unfold velCmdConstrained
    simp only []
    rw [CONSTRAIN_eq_self (V3F.mag_nonneg hs _) hv, V3F.norm_smul_mag hs]
  have ha : lateralAccelCmd sqrtf qc p v p v ⟨0, 0, 0⟩ = ⟨0, 0, 0⟩ := by
    unfold lateralAccelCmd
    simp only []
    rw [hc]
    ext <;> simp
  unfold LateralPositionControl
  simp only []
  rw [ha, V3F.norm_smul hs]
  ext <;> simp

/-- C10 (amended) at the sample controller (`maxSpeedXY = 5`): holding position
`(1, 2, -5)` while moving at `(3, 4, 1)`, horizontal speed 5, asks for no
lateral acceleration. -/
theorem LateralPositionControl_fixed_point_witness :
    IsSqrt Real.sqrt
      ∧ V3F.mag Real.sqrt (⟨3, 4, 0⟩ : V3F ℝ) ≤ (sampleQuad : QuadControl ℝ).maxSpeedXY
      ∧ LateralPositionControl Real.sqrt (sampleQuad : QuadControl ℝ)
          ⟨1, 2, -5⟩ ⟨3, 4, 1⟩ ⟨1, 2, -5⟩ ⟨3, 4, 1⟩ ⟨0, 0, 0⟩ = ⟨0, 0, 0⟩ := by
  have hv : V3F.mag Real.sqrt (⟨3, 4, 0⟩ : V3F ℝ) ≤ (sampleQuad : QuadControl ℝ).maxSpeedXY := by
    rw [V3F.mag_eq isSqrt_real ⟨3, 4, 0⟩ (show (0 : ℝ) ≤ 5 by norm_num) (by norm_num)]
    norm_num [sampleQuad]
  exact ⟨isSqrt_real, hv,
    LateralPositionControl_fixed_point Real.sqrt sampleQuad ⟨1, 2, -5⟩ ⟨3, 4, 1⟩ isSqrt_real hv⟩

end Lateral

/-! ## Facts about the yaw wrap -/

section YawLemmas

variable {α : Type} [LinearOrderedField α] [FloorRing α]

/-- For a non-negative argument and a positive modulus, `fmodf` subtracts the
floor of the quotient times the modulus and lands in `[0, y)`. -/
lemma fmodf_of_nonneg {x y : α} (hx : 0 ≤ x) (hy : 0 < y) :
    fmodf x y = x - (⌊x / y⌋ : α) * y ∧ 0 ≤ fmodf x y ∧ fmodf x y < y := by
  have hq : 0 ≤ x / y := div_nonneg hx hy.le
  have h1 : fmodf x y = x - (⌊x / y⌋ : α) * y := by
    unfold fmodf
    rw [if_pos hq]
  have hfl : (⌊x / y⌋ : α) ≤ x / y := Int.floor_le _
  have hlt : x / y < ⌊x / y⌋ + 1 := Int.lt_floor_add_one _
  have hxy : x / y * y = x := div_mul_cancel₀ x hy.ne'
  refine ⟨h1, ?_, ?_⟩
  · rw [h1]
    have := mul_le_mul_of_nonneg_right hfl hy.le
    linarith
  · rw [h1]
    have := mul_lt_mul_of_pos_right hlt hy
    linarith

lemma fmodf_of_lt {x y : α} (hx : 0 ≤ x) (hxy : x < y) : fmodf x y = x := by
  have hy : 0 < y := lt_of_le_of_lt hx hxy
  have h0 : ⌊x / y⌋ = 0 := by
    rw [Int.floor_eq_iff]
    constructor
    · simpa using div_nonneg hx hy.le
    · simpa using (div_lt_one hy).mpr hxy
  rw [(fmodf_of_nonneg hx hy).1, h0]
  simp

/-- The wrapped command differs from the command by a whole number of turns
and lies strictly within one turn of zero. -/
lemma yawCmd2Pi_spec {F : α} (hF : 0 < F) (yawCmd : α) :
    ∃ k : ℤ, yawCmd2Pi F yawCmd = yawCmd + k * (2 * F)
      ∧ -(2 * F) < yawCmd2Pi F yawCmd ∧ yawCmd2Pi F yawCmd < 2 * F := by
  have h2 : (0 : α) < 2 * F := by linarith
  unfold yawCmd2Pi
  split_ifs with h
  · obtain ⟨e, h0, h1⟩ := fmodf_of_nonneg h.le h2
    refine ⟨-⌊yawCmd / (2 * F)⌋, ?_, by linarith, h1⟩
    rw [e]
    push_cast
    ring
  · have hn : 0 ≤ -yawCmd := by linarith [not_lt.mp h]
    obtain ⟨e, h0, h1⟩ := fmodf_of_nonneg hn h2
    refine ⟨⌊-yawCmd / (2 * F)⌋, ?_, by linarith, by linarith⟩
    rw [e]
    ring

omit [FloorRing α] in
/-- The first loop ends after some `m ≤ n` iterations when `err` is within `n`
turns above `F`. -/
lemma wrapAbove_spec (F : α) :
    ∀ (n : ℕ) (err : α), err ≤ F + n * (2 * F) →
      ∃ m : ℕ, m ≤ n ∧ (∀ fuel, m ≤ fuel → wrapAbove F fuel err = some (err - m * (2 * F), m))
        ∧ err - m * (2 * F) ≤ F ∧ (0 < m → -F < err - m * (2 * F))
        ∧ (err ≤ F → m = 0) := by
  intro n
  induction n with
  | zero =>
    intro err h
    have h' : err ≤ F := by simpa using h
    refine ⟨0, le_rfl, ?_, by simpa using h', by simp, fun _ => rfl⟩
    intro fuel _
    cases fuel <;> simp [wrapAbove, not_lt.mpr h']
  | succ n ih =>
    intro err h
    by_cases h' : err ≤ F
    · refine ⟨0, Nat.zero_le _, ?_, by simpa using h', by simp, fun _ => rfl⟩
      intro fuel _
      cases fuel <;> simp [wrapAbove, not_lt.mpr h']
    · have hgt : err > F := not_le.mp h'
      have hstep : err - 2 * F ≤ F + n * (2 * F) := by
        push_cast at h
        linarith
      obtain ⟨m, hmn, hrun, hle, hgt', _⟩ := ih (err - 2 * F) hstep
      refine ⟨m + 1, Nat.succ_le_succ hmn, ?_, ?_, ?_, fun hc => absurd hc h'⟩
      · intro fuel hfuel
        cases fuel with
        | zero => omega
        | succ f =>
          have := hrun f (by omega)
          simp only [wrapAbove, if_pos hgt, this, Option.map_some']
          push_cast
          congr 2
          ring
      · push_cast
        linarith
      · intro _
        push_cast
        rcases Nat.eq_zero_or_pos m with hm | hm
        · subst hm
          simp
          linarith
        · have := hgt' hm
          linarith

omit [FloorRing α] in
lemma wrapBelow_spec (F : α) :
    ∀ (n : ℕ) (err : α), -F - n * (2 * F) ≤ err →
      ∃ m : ℕ, m ≤ n ∧ (∀ fuel, m ≤ fuel → wrapBelow F fuel err = some (err + m * (2 * F), m))
        ∧ -F ≤ err + m * (2 * F) ∧ (0 < m → err + m * (2 * F) < F)
        ∧ (-F ≤ err → m = 0) := by
  intro n
  induction n with
  | zero =>
    intro err h
    have h' : -F ≤ err := by simpa using h
    refine ⟨0, le_rfl, ?_, by simpa using h', by simp, fun _ => rfl⟩
    intro fuel _
    cases fuel <;> simp [wrapBelow, not_lt.mpr h']
  | succ n ih =>
    intro err h
    by_cases h' : -F ≤ err
    · refine ⟨0, Nat.zero_le _, ?_, by simpa using h', by simp, fun _ => rfl⟩
      intro fuel _
      cases fuel <;> simp [wrapBelow, not_lt.mpr h']
    · have hlt : err < -F := not_le.mp h'
      have hstep : -F - n * (2 * F) ≤ err + 2 * F := by
        push_cast at h
        linarith
      obtain ⟨m, hmn, hrun, hle, hgt', _⟩ := ih (err + 2 * F) hstep
      refine ⟨m + 1, Nat.succ_le_succ hmn, ?_, ?_, ?_, fun hc => absurd hc h'⟩
      · intro fuel hfuel
        cases fuel with
        | zero => omega
        | succ f =>
          have := hrun f (by omega)
          simp only [wrapBelow, if_pos hlt, this, Option.map_some']
          push_cast
          congr 2
          ring
      · push_cast
        linarith
      · intro _
        push_cast
        rcases Nat.eq_zero_or_pos m with hm | hm
        · subst hm
          simp
          linarith
        · have := hgt' hm
          linarith

/-- Both loops end: the first after `m1` iterations, the second after `m2`,
the final error lies in `[-F, F]`, and a start within `(-3F, 3F)` needs at most
one iteration in all. -/
lemma wrapLoops_spec {F : α} (hF : 0 < F) (err : α) :
    ∃ m1 m2 : ℕ,
      (∀ fuel, m1 ≤ fuel → wrapAbove F fuel err = some (err - m1 * (2 * F), m1))
      ∧ (∀ fuel, m2 ≤ fuel → wrapBelow F fuel (err - m1 * (2 * F))
            = some (err - m1 * (2 * F) + m2 * (2 * F), m2))
      ∧ -F ≤ err - m1 * (2 * F) + m2 * (2 * F)
      ∧ err - m1 * (2 * F) + m2 * (2 * F) ≤ F
      ∧ (-(3 * F) < err → err < 3 * F → m1 + m2 ≤ 1) := by
  have h2 : (0 : α) < 2 * F := by linarith
  obtain ⟨n1, hn1⟩ := exists_nat_ge ((err - F) / (2 * F))
  have hb1 : err ≤ F + n1 * (2 * F) := by
    have := (div_le_iff₀ h2).mp hn1
    linarith
  obtain ⟨m1, -, hrun1, hle1, hgt1, hz1⟩ := wrapAbove_spec F n1 err hb1
  obtain ⟨n2, hn2⟩ := exists_nat_ge ((-F - (err - m1 * (2 * F))) / (2 * F))
  have hb2 : -F - n2 * (2 * F) ≤ err - m1 * (2 * F) := by
    have := (div_le_iff₀ h2).mp hn2
    linarith
  obtain ⟨m2, -, hrun2, hge2, hlt2, hz2⟩ := wrapBelow_spec F n2 (err - m1 * (2 * F)) hb2
  refine ⟨m1, m2, hrun1, hrun2, hge2, ?_, ?_⟩
  · rcases Nat.eq_zero_or_pos m2 with hm | hm
    · subst hm
      simpa using hle1
    · exact (hlt2 hm).le
  · intro hlo hhi
    rcases Nat.eq_zero_or_pos m1 with hm1 | hm1
    · subst hm1
      -- no iteration of the first loop: the second runs at most once
      obtain ⟨m2', hm2', hrun2', -, -, -⟩ :=
        wrapBelow_spec F 1 (err - (0 : ℕ) * (2 * F)) (by push_cast; linarith)
      have e1 := hrun2 (max m2 m2') (le_max_left _ _)
      have e2 := hrun2' (max m2 m2') (le_max_right _ _)
      rw [e1] at e2
      have : m2 = m2' := congrArg Prod.snd (Option.some.inj e2)
      omega
    · have hm2 : m2 = 0 := hz2 (hgt1 hm1).le
      -- the first loop runs at most once
      obtain ⟨m1', hm1', hrun1', -, -, -⟩ :=
        wrapAbove_spec F 1 err (by push_cast; linarith)
      have e1 := hrun1 (max m1 m1') (le_max_left _ _)
      have e2 := hrun1' (max m1 m1') (le_max_right _ _)
      rw [e1] at e2
      have : m1 = m1' := congrArg Prod.snd (Option.some.inj e2)
      omega

/-- `YawControlTrace` returns, for enough fuel, `kpYaw * e` with `e` in
`[-F, F]` a whole number of turns away from `yawCmd - yaw`; with `yaw` in
`[-F, F]` the loops run at most once in all. -/
lemma YawControlTrace_spec {F : α} (hF : 0 < F) (qc : QuadControl α) (yawCmd yaw : α) :
    ∃ (e : α) (n : ℕ),
      (∀ fuel, n ≤ fuel → YawControlTrace fuel F qc yawCmd yaw = some (qc.kpYaw * e, n))
      ∧ -F ≤ e ∧ e ≤ F
      ∧ (∃ k : ℤ, e - (yawCmd - yaw) = k * (2 * F))
      ∧ (-F ≤ yaw → yaw ≤ F → n ≤ 1) := by
  obtain ⟨k0, hk0, hlo, hhi⟩ := yawCmd2Pi_spec hF yawCmd
  obtain ⟨m1, m2, hrun1, hrun2, hge, hle, hcount⟩ :=
    wrapLoops_spec hF (yawCmd2Pi F yawCmd - yaw)
  refine ⟨yawCmd2Pi F yawCmd - yaw - m1 * (2 * F) + m2 * (2 * F), m1 + m2, ?_, hge, hle,
    ⟨k0 - m1 + m2, ?_⟩, ?_⟩
  · intro fuel hfuel
    unfold YawControlTrace
    simp only []
    rw [hrun1 fuel (by omega)]
    simp only [Option.some_bind]
    rw [hrun2 fuel (by omega)]
    simp
  · rw [hk0]
    push_cast
    ring
  · intro h1 h2
    exact hcount (by linarith) (by linarith)

omit [FloorRing α] in
/-- An integer number of turns that fits into `[-F, F]` is zero. -/
lemma turns_eq_zero {F : α} (hF : 0 < F) {k : ℤ} (h1 : -F ≤ (k : α) * (2 * F))
    (h2 : (k : α) * (2 * F) ≤ F) : k = 0 := by
  by_contra hk
  rcases lt_or_gt_of_ne hk with hneg | hpos
  · have : (k : α) ≤ -1 := by exact_mod_cast Int.le_sub_one_of_lt hneg
    nlinarith
  · have : (1 : α) ≤ k := by exact_mod_cast Int.add_one_le_of_lt hpos
    nlinarith

lemma fmodf_add_turns {x y : α} (hy : 0 < y) (k : ℤ) (hx : 0 ≤ x) (hxk : 0 ≤ x + y * k) :
    fmodf (x + y * k) y = fmodf x y := by
  rw [(fmodf_of_nonneg hxk hy).1, (fmodf_of_nonneg hx hy).1]
  have : (x + y * k) / y = x / y + k := by
    field_simp
    ring
  rw [this, Int.floor_add_int]
  push_cast
  ring

/-- A shift of the command by whole turns that keeps it on the same side of
zero does not change the wrapped command. -/
lemma yawCmd2Pi_shift {F : α} (hF : 0 < F) (yawCmd : α) (k : ℤ)
    (h : (0 < yawCmd ∧ 0 < yawCmd + 2 * F * k) ∨ (yawCmd ≤ 0 ∧ yawCmd + 2 * F * k ≤ 0)) :
    yawCmd2Pi F (yawCmd + 2 * F * k) = yawCmd2Pi F yawCmd := by
  have h2 : (0 : α) < 2 * F := by linarith
  unfold yawCmd2Pi
  rcases h with ⟨h0, hk⟩ | ⟨h0, hk⟩
  · rw [if_pos hk, if_pos h0]
    exact fmodf_add_turns h2 k h0.le hk.le
  · rw [if_neg (not_lt.mpr hk), if_neg (not_lt.mpr h0)]
    have e : -(yawCmd + 2 * F * k) = -yawCmd + 2 * F * ((-k : ℤ) : α) := by
      push_cast
      ring
    rw [e, fmodf_add_turns h2 (-k) (by linarith) (by rw [← e]; linarith)]

/-- The wrapped errors of a command and of the command shifted by whole turns
are equal or the two ends of the wrap interval. -/
lemma YawControl_shift_core {F : α} (hF : 0 < F) (qc : QuadControl α) (yawCmd yaw : α)
    (k : ℤ) :
    ∃ (e1 e2 : α) (n : ℕ),
      (∀ fuel, n ≤ fuel →
        YawControl fuel F qc (yawCmd + 2 * F * k) yaw = some (qc.kpYaw * e1)
        ∧ YawControl fuel F qc yawCmd yaw = some (qc.kpYaw * e2))
      ∧ (e1 = e2
          ∨ (e1 = F ∧ e2 = -F ∧ ∃ j : ℤ, yawCmd - yaw = (2 * j + 1) * F)
          ∨ (e1 = -F ∧ e2 = F ∧ ∃ j : ℤ, yawCmd - yaw = (2 * j + 1) * F)) := by
  obtain ⟨e1, n1, hrun1, hge1, hle1, ⟨k1, hk1⟩, -⟩ :=
    YawControlTrace_spec hF qc (yawCmd + 2 * F * k) yaw
  obtain ⟨e2, n2, hrun2, hge2, hle2, ⟨k2, hk2⟩, -⟩ := YawControlTrace_spec hF qc yawCmd yaw
  refine ⟨e1, e2, max n1 n2, ?_, ?_⟩
  · intro fuel hfuel
    unfold YawControl
    rw [hrun1 fuel (le_trans (le_max_left _ _) hfuel),
      hrun2 fuel (le_trans (le_max_right _ _) hfuel)]
    exact ⟨rfl, rfl⟩
  · have hd : e1 - e2 = ((k1 + k - k2 : ℤ) : α) * (2 * F) := by
      push_cast
      linear_combination hk1 - hk2
    rcases lt_trichotomy (k1 + k - k2) 0 with hneg | hzero | hpos
    · have hc : ((k1 + k - k2 : ℤ) : α) ≤ -1 := by exact_mod_cast Int.le_sub_one_of_lt hneg
      have h1 : e1 - e2 ≤ -(2 * F) := by rw [hd]; nlinarith
      refine Or.inr (Or.inr ⟨by linarith, by linarith, -k2, ?_⟩)
      have : e2 = F := by linarith
      push_cast
      linear_combination this - hk2
    · left
      rw [hzero] at hd
      simp at hd
      linarith
    · have hc : (1 : α) ≤ ((k1 + k - k2 : ℤ) : α) := by exact_mod_cast Int.add_one_le_of_lt hpos
      have h1 : 2 * F ≤ e1 - e2 := by rw [hd]; nlinarith
      refine Or.inr (Or.inl ⟨by linarith, by linarith, -k2 - 1, ?_⟩)
      have : e2 = -F := by linarith
      push_cast
      linear_combination this - hk2

end YawLemmas

/-! ## Yaw controller -/

section YawTheorems

variable {α : Type} [LinearOrderedField α] [FloorRing α]

/-- C11: for `F_PI > 0` (the constant π) and every `yawCmd`, `yaw`, the two
wrap loops terminate (enough fuel gives a result) and the result is
`kpYaw * e` with `e` in `[-F_PI, F_PI]` and `e - (yawCmd - yaw)` an integer
multiple of `2 * F_PI`; hence `|result| ≤ F_PI * |kpYaw|`.  When `yaw` is in
`[-F_PI, F_PI]` the loops together run at most one iteration. -/
theorem YawControl_shortest_path (F_PI : α) (qc : QuadControl α) (yawCmd yaw : α)
    (hF : 0 < F_PI) :
    ∃ (e : α) (n : ℕ),
      (∀ fuel, n ≤ fuel →
        YawControlTrace fuel F_PI qc yawCmd yaw = some (qc.kpYaw * e, n)
        ∧ YawControl fuel F_PI qc yawCmd yaw = some (qc.kpYaw * e))
      ∧ -F_PI ≤ e ∧ e ≤ F_PI
      ∧ (∃ k : ℤ, e - (yawCmd - yaw) = k * (2 * F_PI))
      ∧ |qc.kpYaw * e| ≤ F_PI * |qc.kpYaw|
      ∧ (-F_PI ≤ yaw → yaw ≤ F_PI → n ≤ 1) := by
  obtain ⟨e, n, hrun, hge, hle, hk, hcount⟩ := YawControlTrace_spec hF qc yawCmd yaw
  refine ⟨e, n, ?_, hge, hle, hk, ?_, hcount⟩
  · intro fuel hfuel
    refine ⟨hrun fuel hfuel, ?_⟩
    unfold YawControl
    rw [hrun fuel hfuel]
    rfl
  · rw [abs_mul, mul_comm]
    exact mul_le_mul_of_nonneg_right (abs_le.mpr ⟨hge, hle⟩) (abs_nonneg _)

/-- C11 at the sample controller with `F_PI = π`: a command of 3π at yaw 0
ends, with at most one loop iteration. -/
theorem YawControl_shortest_path_witness :
    0 < Real.pi ∧ -Real.pi ≤ (0 : ℝ) ∧ (0 : ℝ) ≤ Real.pi
      ∧ ∃ (e : ℝ) (n : ℕ),
          (∀ fuel, n ≤ fuel → YawControl fuel Real.pi (sampleQuad : QuadControl ℝ)
              (3 * Real.pi) 0 = some ((sampleQuad : QuadControl ℝ).kpYaw * e))
          ∧ -Real.pi ≤ e ∧ e ≤ Real.pi ∧ n ≤ 1 := by
  have h1 : -Real.pi ≤ (0 : ℝ) := by linarith [Real.pi_pos]
  obtain ⟨e, n, hrun, hge, hle, -, -, hcount⟩ :=
    YawControl_shortest_path Real.pi (sampleQuad : QuadControl ℝ) (3 * Real.pi) 0 Real.pi_pos
  exact ⟨Real.pi_pos, h1, Real.pi_pos.le, e, n, fun fuel hf => (hrun fuel hf).2, hge, hle,
    hcount h1 Real.pi_pos.le⟩

/-- C12 fails on the boundary of the wrap interval: with `F_PI = π`, yaw 0
and `kpYaw = 2`, the command π gives the error π and the rate `2π`, while the
command `π + 2π·(-1) = -π` gives the error `-π` and the rate `-2π`. -/
theorem YawControl_shift_counterexample :
    YawControl 1 Real.pi (sampleQuad : QuadControl ℝ) Real.pi 0 = some (2 * Real.pi)
      ∧ YawControl 1 Real.pi (sampleQuad : QuadControl ℝ)
          (Real.pi + 2 * Real.pi * ((-1 : ℤ) : ℝ)) 0 = some (-(2 * Real.pi))
      ∧ YawControl 1 Real.pi (sampleQuad : QuadControl ℝ)
          (Real.pi + 2 * Real.pi * ((-1 : ℤ) : ℝ)) 0
        ≠ YawControl 1 Real.pi (sampleQuad : QuadControl ℝ) Real.pi 0 := by
  have hp := Real.pi_pos
  have hf : fmodf Real.pi (2 * Real.pi) = Real.pi := fmodf_of_lt hp.le (by linarith)
  have e1 : yawCmd2Pi Real.pi Real.pi = Real.pi := by
    unfold yawCmd2Pi
    rw [if_pos hp, hf]
  have hs : Real.pi + 2 * Real.pi * ((-1 : ℤ) : ℝ) = -Real.pi := by
    push_cast
    ring
  have e2 : yawCmd2Pi Real.pi (-Real.pi) = -Real.pi := by
    unfold yawCmd2Pi
    rw [if_neg (by linarith), neg_neg, hf]
  have r1 : YawControl 1 Real.pi (sampleQuad : QuadControl ℝ) Real.pi 0 = some (2 * Real.pi) := by
    have h1 : ¬ Real.pi < -Real.pi := by linarith
    simp [YawControl, YawControlTrace, e1, wrapAbove, wrapBelow, h1, sampleQuad]
  have r2 : YawControl 1 Real.pi (sampleQuad : QuadControl ℝ)
      (Real.pi + 2 * Real.pi * ((-1 : ℤ) : ℝ)) 0 = some (-(2 * Real.pi)) := by
    rw [hs]
    have h1 : ¬ Real.pi < -Real.pi := by linarith
    simp [YawControl, YawControlTrace, e2, wrapAbove, wrapBelow, h1, sampleQuad]
  refine ⟨r1, r2, ?_⟩
  rw [r1, r2]
  intro h
  have := Option.some.inj h
  linarith

/-- C12 (amended): for `F_PI > 0` and every `yawCmd`, `yaw` and integer `k`,
`YawControl(yawCmd + 2*F_PI*k, yaw) = YawControl(yawCmd, yaw)` whenever the
shifted command lies on the same side of zero as the command (both `> 0` or
both `≤ 0`), and also whenever `yawCmd - yaw` is not an odd multiple of
`F_PI`; in every case the two results are equal or are `kpYaw * F_PI` and
`-(kpYaw * F_PI)`. -/
theorem YawControl_shift (F_PI : α) (qc : QuadControl α) (yawCmd yaw : α) (k : ℤ)
    (hF : 0 < F_PI) :
    (((0 < yawCmd ∧ 0 < yawCmd + 2 * F_PI * k) ∨ (yawCmd ≤ 0 ∧ yawCmd + 2 * F_PI * k ≤ 0)) →
        ∀ fuel, YawControl fuel F_PI qc (yawCmd + 2 * F_PI * k) yaw
          = YawControl fuel F_PI qc yawCmd yaw)
    ∧ ∃ (n : ℕ) (r1 r2 : α),
        (∀ fuel, n ≤ fuel →
          YawControl fuel F_PI qc (yawCmd + 2 * F_PI * k) yaw = some r1
          ∧ YawControl fuel F_PI qc yawCmd yaw = some r2)
        ∧ ((¬ ∃ j : ℤ, yawCmd - yaw = (2 * j + 1) * F_PI) → r1 = r2)
        ∧ (r1 = r2 ∨ (r1 = qc.kpYaw * F_PI ∧ r2 = -(qc.kpYaw * F_PI))
            ∨ (r1 = -(qc.kpYaw * F_PI) ∧ r2 = qc.kpYaw * F_PI)) := by
  constructor
  · intro h fuel
    unfold YawControl YawControlTrace
    rw [yawCmd2Pi_shift hF yawCmd k h]
  · obtain ⟨e1, e2, n, hrun, hcases⟩ := YawControl_shift_core hF qc yawCmd yaw k
    refine ⟨n, qc.kpYaw * e1, qc.kpYaw * e2, hrun, ?_, ?_⟩
    · intro hodd
      rcases hcases with h | ⟨-, -, hj⟩ | ⟨-, -, hj⟩
      · rw [h]
      · exact absurd hj hodd
      · exact absurd hj hodd
    · rcases hcases with h | ⟨h1, h2, -⟩ | ⟨h1, h2, -⟩
      · left
        rw [h]
      · right
        left
        rw [h1, h2]
        exact ⟨rfl, by ring⟩
      · right
        right
        rw [h1, h2]
        exact ⟨by ring, rfl⟩

/-- C12 (amended) at the witness of the specification, `F_PI = π`:
`YawControl(3π, 0) = YawControl(π, 0)`. -/
theorem YawControl_shift_witness :
    0 < Real.pi ∧ 0 < Real.pi + 2 * Real.pi * ((1 : ℤ) : ℝ)
      ∧ YawControl 1 Real.pi (sampleQuad : QuadControl ℝ) (3 * Real.pi) 0
          = YawControl 1 Real.pi (sampleQuad : QuadControl ℝ) Real.pi 0 := by
  have hp := Real.pi_pos
  have h3 : 0 < Real.pi + 2 * Real.pi * ((1 : ℤ) : ℝ) := by
    push_cast
    linarith
  have hs : Real.pi + 2 * Real.pi * ((1 : ℤ) : ℝ) = 3 * Real.pi := by
    push_cast
    ring
  have h := (YawControl_shift Real.pi (sampleQuad : QuadControl ℝ) Real.pi 0 1 hp).1
    (Or.inl ⟨hp, h3⟩) 1
  rw [hs] at h
  exact ⟨hp, h3, h⟩

/-- C13: for `F_PI > 0` and every yaw `y`, `YawControl(y, y)` returns 0, and
for every body-rate vector `w`, `BodyRateControl(w, w) = (0,0,0)`, for every
gain and inertia configuration and whatever the static of `BodyRateControl`
holds. -/
theorem zero_error_fixed_point (F_PI : α) (qc : QuadControl α) (y : α) (w : V3F α)
    (c1 : Option (V3F α)) (hF : 0 < F_PI) :
    (∃ n : ℕ, ∀ fuel, n ≤ fuel → YawControl fuel F_PI qc y y = some 0)
    ∧ (BodyRateControl c1 qc w w).1 = ⟨0, 0, 0⟩ := by
  constructor
  · obtain ⟨e, n, hrun, hge, hle, ⟨k, hk⟩, -⟩ := YawControlTrace_spec hF qc y y
    have he : e = k * (2 * F_PI) := by linarith
    have hk0 : k = 0 := turns_eq_zero hF (he ▸ hge) (he ▸ hle)
    have he0 : e = 0 := by rw [he, hk0]; simp
    refine ⟨n, fun fuel hfuel => ?_⟩
    unfold YawControl
    rw [hrun fuel hfuel, he0]
    simp
  · unfold BodyRateControl
    ext <;> simp

/-- C13 with `F_PI = π` at the sample controller: yaw 3π/4 commanded and
held, body rates `(1, -2, 3)` commanded and held, before the first call of
`BodyRateControl`. -/
theorem zero_error_fixed_point_witness :
    0 < Real.pi
      ∧ (∃ n : ℕ, ∀ fuel, n ≤ fuel →
          YawControl fuel Real.pi (sampleQuad : QuadControl ℝ) (3 * Real.pi / 4)
            (3 * Real.pi / 4) = some 0)
      ∧ (BodyRateControl none (sampleQuad : QuadControl ℝ) ⟨1, -2, 3⟩ ⟨1, -2, 3⟩).1
          = ⟨0, 0, 0⟩ :=
  ⟨Real.pi_pos,
    zero_error_fixed_point Real.pi sampleQuad (3 * Real.pi / 4) ⟨1, -2, 3⟩ none Real.pi_pos⟩

end YawTheorems

/-! ## Attitude and body-rate controllers -/

section Attitude

variable {α : Type} [LinearOrderedField α]

/-- C14: if `collThrustCmd ≤ 0` the result is `(0,0,0)` and the call evaluates
no division, for every acceleration command and attitude; and for every input
the `z` component of the result is 0. -/
theorem RollPitchControl_guard (qc : QuadControl α) (accelCmd : V3F α)
    (attitude : Quaternion α) (collThrustCmd : α) :
    (collThrustCmd ≤ 0 →
        RollPitchControl qc accelCmd attitude collThrustCmd = ⟨0, 0, 0⟩
        ∧ RollPitchControl_divisors qc attitude collThrustCmd = [])
    ∧ (RollPitchControl qc accelCmd attitude collThrustCmd).z = 0 := by
  refine ⟨fun h => ⟨?_, ?_⟩, rfl⟩
  · unfold RollPitchControl
    simp only []
    rw [if_neg (not_lt.mpr h)]
  · unfold RollPitchControl_divisors
    rw [if_neg (not_lt.mpr h)]

/-- C14 at the sample controller: a thrust command of -1 N with a lateral
acceleration command gives no roll or pitch rate. -/
theorem RollPitchControl_guard_witness :
    (-1 : ℚ) ≤ 0
      ∧ RollPitchControl (sampleQuad : QuadControl ℚ) ⟨3, 4, 0⟩ tiltedAttitude (-1) = ⟨0, 0, 0⟩
      ∧ RollPitchControl_divisors (sampleQuad : QuadControl ℚ) tiltedAttitude (-1) = [] :=
  ⟨by norm_num,
    (RollPitchControl_guard (sampleQuad : QuadControl ℚ) ⟨3, 4, 0⟩ tiltedAttitude (-1)).1
      (by norm_num)⟩

/-- The first call of `BodyRateControl` in the program returns
`kpPQR * (Ixx, Iyy, Izz) * (pqrCmd - pqr)` per axis and stores the product of
gains and inertias in the static. -/
lemma BodyRateControl_first_call (qc : QuadControl α) (pqrCmd pqr : V3F α) :
    BodyRateControl none qc pqrCmd pqr
      = (qc.kpPQR * (⟨qc.Ixx, qc.Iyy, qc.Izz⟩ : V3F α) * (pqrCmd - pqr),
          some (qc.kpPQR * (⟨qc.Ixx, qc.Iyy, qc.Izz⟩ : V3F α))) :=
  rfl

/-- Every later call returns the stored product times the rate error,
whatever the gains and inertias of the controller it is called on. -/
lemma BodyRateControl_later_call (c : V3F α) (qc : QuadControl α) (pqrCmd pqr : V3F α) :
    BodyRateControl (some c) qc pqrCmd pqr = (c * (pqrCmd - pqr), some c) :=
  rfl

/-- C15 fails after the first call: the sample controller (`kpPQR = (70,70,15)`)
calls `BodyRateControl` once; a call on a controller with `kpPQR = (1,2,3)` and
the same inertias, rate command `(1,1,1)` and rate `(0,0,0)`, then returns
`(70*0.0023, 70*0.0023, 15*0.0046)`, the product of the first controller, and
not `(1*0.0023, 2*0.0023, 3*0.0046)`. -/
theorem BodyRateControl_stale_static :
    (BodyRateControl
        (BodyRateControl none (sampleQuad : QuadControl ℚ) ⟨0, 0, 0⟩ ⟨0, 0, 0⟩).2
        (regainedQuad : QuadControl ℚ) ⟨1, 1, 1⟩ ⟨0, 0, 0⟩).1
      = ⟨0.161, 0.161, 0.069⟩
    ∧ (regainedQuad : QuadControl ℚ).kpPQR
          * (⟨(regainedQuad : QuadControl ℚ).Ixx, (regainedQuad : QuadControl ℚ).Iyy,
              (regainedQuad : QuadControl ℚ).Izz⟩ : V3F ℚ)
          * ((⟨1, 1, 1⟩ : V3F ℚ) - ⟨0, 0, 0⟩)
      = ⟨0.0023, 0.0046, 0.0138⟩
    ∧ (BodyRateControl
        (BodyRateControl none (sampleQuad : QuadControl ℚ) ⟨0, 0, 0⟩ ⟨0, 0, 0⟩).2
        (regainedQuad : QuadControl ℚ) ⟨1, 1, 1⟩ ⟨0, 0, 0⟩).1
      ≠ (regainedQuad : QuadControl ℚ).kpPQR
          * (⟨(regainedQuad : QuadControl ℚ).Ixx, (regainedQuad : QuadControl ℚ).Iyy,
              (regainedQuad : QuadControl ℚ).Izz⟩ : V3F ℚ)
          * ((⟨1, 1, 1⟩ : V3F ℚ) - ⟨0, 0, 0⟩) := by
  have h1 : (BodyRateControl
        (BodyRateControl none (sampleQuad : QuadControl ℚ) ⟨0, 0, 0⟩ ⟨0, 0, 0⟩).2
        (regainedQuad : QuadControl ℚ) ⟨1, 1, 1⟩ ⟨0, 0, 0⟩).1
      = ⟨0.161, 0.161, 0.069⟩ := by
    rw [BodyRateControl_first_call, BodyRateControl_later_call]
    ext <;> norm_num [sampleQuad]
  have h2 : (regainedQuad : QuadControl ℚ).kpPQR
          * (⟨(regainedQuad : QuadControl ℚ).Ixx, (regainedQuad : QuadControl ℚ).Iyy,
              (regainedQuad : QuadControl ℚ).Izz⟩ : V3F ℚ)
          * ((⟨1, 1, 1⟩ : V3F ℚ) - ⟨0, 0, 0⟩)
      = ⟨0.0023, 0.0046, 0.0138⟩ := by
    ext <;> norm_num [regainedQuad, sampleQuad]
  refine ⟨h1, h2, ?_⟩
  rw [h1, h2]
  intro h
  have := congrArg V3F.x h
  norm_num at this

/-- C17: for `collThrustCmd > 0`, with `c = -collThrustCmd/mass`,
`bx = clamp(accelCmd.x/c, -maxTiltAngle, maxTiltAngle)`, `by` likewise and `R`
the rotation matrix, the result is
`p = kpBank*(R(1,0)*(bx - R(0,2)) - R(0,0)*(by - R(1,2)))/R(2,2)`,
`q = kpBank*(R(1,1)*(bx - R(0,2)) - R(0,1)*(by - R(1,2)))/R(2,2)`, `r = 0`;
the rates are zero when `bx = R(0,2)` and `by = R(1,2)`; and for
`maxTiltAngle ≥ 0` a command whose `accelCmd.x/c` (or `accelCmd.y/c`) lies
beyond a tilt limit gives the output of the command at that limit. -/
theorem RollPitchControl_formula (qc : QuadControl α) (accelCmd : V3F α)
    (attitude : Quaternion α) (collThrustCmd : α) (hT : 0 < collThrustCmd) :
    RollPitchControl qc accelCmd attitude collThrustCmd
      = ⟨qc.kpBank * (attitude.RotationMatrix_IwrtB 1 0
              * (CONSTRAIN (accelCmd.x / (-collThrustCmd / qc.mass)) (-qc.maxTiltAngle)
                  qc.maxTiltAngle - attitude.RotationMatrix_IwrtB 0 2)
            - attitude.RotationMatrix_IwrtB 0 0
              * (CONSTRAIN (accelCmd.y / (-collThrustCmd / qc.mass)) (-qc.maxTiltAngle)
                  qc.maxTiltAngle - attitude.RotationMatrix_IwrtB 1 2))
          / attitude.RotationMatrix_IwrtB 2 2,
         qc.kpBank * (attitude.RotationMatrix_IwrtB 1 1
              * (CONSTRAIN (accelCmd.x / (-collThrustCmd / qc.mass)) (-qc.maxTiltAngle)
                  qc.maxTiltAngle - attitude.RotationMatrix_IwrtB 0 2)
            - attitude.RotationMatrix_IwrtB 0 1
              * (CONSTRAIN (accelCmd.y / (-collThrustCmd / qc.mass)) (-qc.maxTiltAngle)
                  qc.maxTiltAngle - attitude.RotationMatrix_IwrtB 1 2))
          / attitude.RotationMatrix_IwrtB 2 2,
         0⟩
    ∧ (CONSTRAIN (accelCmd.x / (-collThrustCmd / qc.mass)) (-qc.maxTiltAngle) qc.maxTiltAngle
          = attitude.RotationMatrix_IwrtB 0 2 →
        CONSTRAIN (accelCmd.y / (-collThrustCmd / qc.mass)) (-qc.maxTiltAngle) qc.maxTiltAngle
          = attitude.RotationMatrix_IwrtB 1 2 →
        RollPitchControl qc accelCmd attitude collThrustCmd = ⟨0, 0, 0⟩)
    ∧ (0 ≤ qc.maxTiltAngle →
        ∀ limitCmd : V3F α,
          ((qc.maxTiltAngle ≤ accelCmd.x / (-collThrustCmd / qc.mass)
              ∧ limitCmd.x / (-collThrustCmd / qc.mass) = qc.maxTiltAngle)
            ∨ (accelCmd.x / (-collThrustCmd / qc.mass) ≤ -qc.maxTiltAngle
              ∧ limitCmd.x / (-collThrustCmd / qc.mass) = -qc.maxTiltAngle)
            ∨ limitCmd.x = accelCmd.x) →
          ((qc.maxTiltAngle ≤ accelCmd.y / (-collThrustCmd / qc.mass)
              ∧ limitCmd.y / (-collThrustCmd / qc.mass) = qc.maxTiltAngle)
            ∨ (accelCmd.y / (-collThrustCmd / qc.mass) ≤ -qc.maxTiltAngle
              ∧ limitCmd.y / (-collThrustCmd / qc.mass) = -qc.maxTiltAngle)
            ∨ limitCmd.y = accelCmd.y) →
          RollPitchControl qc accelCmd attitude collThrustCmd
            = RollPitchControl qc limitCmd attitude collThrustCmd) := by
  have hform : ∀ a : V3F α, RollPitchControl qc a attitude collThrustCmd
      = ⟨qc.kpBank * (attitude.RotationMatrix_IwrtB 1 0
              * (CONSTRAIN (a.x / (-collThrustCmd / qc.mass)) (-qc.maxTiltAngle)
                  qc.maxTiltAngle - attitude.RotationMatrix_IwrtB 0 2)
            - attitude.RotationMatrix_IwrtB 0 0
              * (CONSTRAIN (a.y / (-collThrustCmd / qc.mass)) (-qc.maxTiltAngle)
                  qc.maxTiltAngle - attitude.RotationMatrix_IwrtB 1 2))
          / attitude.RotationMatrix_IwrtB 2 2,
         qc.kpBank * (attitude.RotationMatrix_IwrtB 1 1
              * (CONSTRAIN (a.x / (-collThrustCmd / qc.mass)) (-qc.maxTiltAngle)
                  qc.maxTiltAngle - attitude.RotationMatrix_IwrtB 0 2)
            - attitude.RotationMatrix_IwrtB 0 1
              * (CONSTRAIN (a.y / (-collThrustCmd / qc.mass)) (-qc.maxTiltAngle)
                  qc.maxTiltAngle - attitude.RotationMatrix_IwrtB 1 2))
          / attitude.RotationMatrix_IwrtB 2 2,
         0⟩ := by
    intro a
    unfold RollPitchControl
    simp only []
    rw [if_pos hT]
    ext
    · show _ / _ = _ / _
      congr 1
      ring
    · show _ / _ = _ / _
      congr 1
      ring
    · rfl
  have hsat : ∀ u v : α, 0 ≤ qc.maxTiltAngle →
      ((qc.maxTiltAngle ≤ u ∧ v = qc.maxTiltAngle) ∨ (u ≤ -qc.maxTiltAngle ∧ v = -qc.maxTiltAngle)) →
      CONSTRAIN u (-qc.maxTiltAngle) qc.maxTiltAngle
        = CONSTRAIN v (-qc.maxTiltAngle) qc.maxTiltAngle := by
    intro u v h0 h
    have hlohi : -qc.maxTiltAngle ≤ qc.maxTiltAngle := by linarith
    rcases h with ⟨h1, h2⟩ | ⟨h1, h2⟩
    · rw [h2, CONSTRAIN_eq_high hlohi h1, CONSTRAIN_eq_high hlohi le_rfl]
    · rw [h2, CONSTRAIN_eq_low hlohi h1, CONSTRAIN_eq_low hlohi le_rfl]
  refine ⟨hform accelCmd, ?_, ?_⟩
  · intro hx hy
    rw [hform accelCmd, hx, hy]
    ext <;> simp
  · intro h0 limitCmd hx hy
    have ex : CONSTRAIN (accelCmd.x / (-collThrustCmd / qc.mass)) (-qc.maxTiltAngle)
          qc.maxTiltAngle
        = CONSTRAIN (limitCmd.x / (-collThrustCmd / qc.mass)) (-qc.maxTiltAngle)
          qc.maxTiltAngle := by
      rcases hx with h | h | h
      · exact hsat _ _ h0 (Or.inl h)
      · exact hsat _ _ h0 (Or.inr h)
      · rw [h]
    have ey : CONSTRAIN (accelCmd.y / (-collThrustCmd / qc.mass)) (-qc.maxTiltAngle)
          qc.maxTiltAngle
        = CONSTRAIN (limitCmd.y / (-collThrustCmd / qc.mass)) (-qc.maxTiltAngle)
          qc.maxTiltAngle := by
      rcases hy with h | h | h
      · exact hsat _ _ h0 (Or.inl h)
      · exact hsat _ _ h0 (Or.inr h)
      · rw [h]
    rw [hform accelCmd, hform limitCmd, ex, ey]

/-- C17 at the sample controller, level, hover thrust 4.9 N: no lateral
acceleration command gives no rates, and a command of -9.8 m/s² on `x` (tilt 1,
beyond `maxTiltAngle = 0.7`) gives the output of the command -6.86 m/s² (tilt
0.7). -/
theorem RollPitchControl_formula_witness :
    (0 : ℚ) < 4.9
      ∧ RollPitchControl (sampleQuad : QuadControl ℚ) ⟨0, 0, 0⟩ levelAttitude 4.9 = ⟨0, 0, 0⟩
      ∧ (sampleQuad : QuadControl ℚ).maxTiltAngle
          ≤ (-9.8 : ℚ) / (-4.9 / (sampleQuad : QuadControl ℚ).mass)
      ∧ RollPitchControl (sampleQuad : QuadControl ℚ) ⟨-9.8, 0, 0⟩ levelAttitude 4.9
          = RollPitchControl (sampleQuad : QuadControl ℚ) ⟨-6.86, 0, 0⟩ levelAttitude 4.9 := by
  have hT : (0 : ℚ) < 4.9 := by norm_num
  have hsat : (sampleQuad : QuadControl ℚ).maxTiltAngle
      ≤ (-9.8 : ℚ) / (-4.9 / (sampleQuad : QuadControl ℚ).mass) := by
    norm_num [sampleQuad]
  refine ⟨hT, ?_, hsat, ?_⟩
  · exact (RollPitchControl_formula (sampleQuad : QuadControl ℚ) ⟨0, 0, 0⟩ levelAttitude 4.9
      hT).2.1 (by norm_num [CONSTRAIN, sampleQuad, levelAttitude])
      (by norm_num [CONSTRAIN, sampleQuad, levelAttitude])
  · exact (RollPitchControl_formula (sampleQuad : QuadControl ℚ) ⟨-9.8, 0, 0⟩ levelAttitude 4.9
      hT).2.2 (by norm_num [sampleQuad]) ⟨-6.86, 0, 0⟩
      (Or.inl ⟨hsat, by norm_num [sampleQuad]⟩) (Or.inr (Or.inr rfl))

end Attitude

/-! ## Altitude controller and tilt -/

section Tilt

variable {α : Type} [LinearOrderedField α]

/-- C18 fails when the commanded acceleration exceeds gravity: the sample
controller 5 m above the commanded altitude asks for 104 m/s² downwards, the
level call returns `0.5 * (9.81 - 104) = -47.095` and the call with
`R(2,2) = 0.6` returns `-47.095 / 0.6`, which is smaller, not greater. -/
theorem AltitudeControl_tilt_counterexample :
    0 < (sampleQuad : QuadControl ℚ).mass
      ∧ 0 < (tiltedAttitude : Quaternion ℚ).RotationMatrix_IwrtB 2 2
      ∧ (tiltedAttitude : Quaternion ℚ).RotationMatrix_IwrtB 2 2
          < (levelAttitude : Quaternion ℚ).RotationMatrix_IwrtB 2 2
      ∧ (levelAttitude : Quaternion ℚ).RotationMatrix_IwrtB 2 2 ≤ 1
      ∧ (AltitudeControl 9.81 (sampleQuad : QuadControl ℚ) 0 0 (-5) 0 levelAttitude 0 0.02).1
          = -47.095
      ∧ (AltitudeControl 9.81 (sampleQuad : QuadControl ℚ) 0 0 (-5) 0 tiltedAttitude 0 0.02).1
          < (AltitudeControl 9.81 (sampleQuad : QuadControl ℚ) 0 0 (-5) 0 levelAttitude 0 0.02).1 := by
  have h1 : (AltitudeControl 9.81 (sampleQuad : QuadControl ℚ) 0 0 (-5) 0 levelAttitude 0 0.02).1
      = -47.095 := by
    norm_num [AltitudeControl, limitVelZCmd, CONSTRAIN, sampleQuad, levelAttitude]
  have h2 : (AltitudeControl 9.81 (sampleQuad : QuadControl ℚ) 0 0 (-5) 0 tiltedAttitude 0 0.02).1
      = -47.095 / 0.6 := by
    norm_num [AltitudeControl, limitVelZCmd, CONSTRAIN, sampleQuad, tiltedAttitude]
  refine ⟨by norm_num [sampleQuad], by norm_num [tiltedAttitude],
    by norm_num [tiltedAttitude, levelAttitude], by norm_num [levelAttitude], h1, ?_⟩
  rw [h1, h2]
  norm_num

/-- C18 (amended): for `mass > 0` and two calls from the same controller
state that are identical except for the attitude, with
`0 < R'(2,2) < R(2,2) ≤ 1`, if the thrust returned for the less tilted
attitude is positive then the thrust returned for the more tilted attitude is
greater. -/
theorem AltitudeControl_tilt (g : α) (qc : QuadControl α) (posZCmd velZCmd posZ velZ : α)
    (attitude attitude' : Quaternion α) (accelZCmd dt : α)
    (hm : 0 < qc.mass)
    (hR' : 0 < attitude'.RotationMatrix_IwrtB 2 2)
    (hlt : attitude'.RotationMatrix_IwrtB 2 2 < attitude.RotationMatrix_IwrtB 2 2)
    (_hR : attitude.RotationMatrix_IwrtB 2 2 ≤ 1)
    (hpos : 0 < (AltitudeControl g qc posZCmd velZCmd posZ velZ attitude accelZCmd dt).1) :
    (AltitudeControl g qc posZCmd velZCmd posZ velZ attitude accelZCmd dt).1
      < (AltitudeControl g qc posZCmd velZCmd posZ velZ attitude' accelZCmd dt).1 := by
  have hRpos : 0 < attitude.RotationMatrix_IwrtB 2 2 := hR'.trans hlt
  simp only [AltitudeControl] at hpos ⊢
  have hN := (div_pos_iff_of_pos_right hRpos).mp ((mul_pos_iff_of_pos_left hm).mp hpos)
  exact mul_lt_mul_of_pos_left (div_lt_div_of_pos_left hN hR' hlt) hm

/-- C18 (amended) at the sample controller in altitude hold: the hover thrust
at `R(2,2) = 0.6` exceeds the level hover thrust. -/
theorem AltitudeControl_tilt_witness :
    0 < (sampleQuad : QuadControl ℚ).mass
      ∧ 0 < (tiltedAttitude : Quaternion ℚ).RotationMatrix_IwrtB 2 2
      ∧ (tiltedAttitude : Quaternion ℚ).RotationMatrix_IwrtB 2 2
          < (levelAttitude : Quaternion ℚ).RotationMatrix_IwrtB 2 2
      ∧ (levelAttitude : Quaternion ℚ).RotationMatrix_IwrtB 2 2 ≤ 1
      ∧ 0 < (AltitudeControl 9.81 (sampleQuad : QuadControl ℚ) (-5) 0 (-5) 0 levelAttitude 0
            0.02).1
      ∧ (AltitudeControl 9.81 (sampleQuad : QuadControl ℚ) (-5) 0 (-5) 0 levelAttitude 0 0.02).1
          < (AltitudeControl 9.81 (sampleQuad : QuadControl ℚ) (-5) 0 (-5) 0 tiltedAttitude 0
              0.02).1 := by
  have hm : 0 < (sampleQuad : QuadControl ℚ).mass := by norm_num [sampleQuad]
  have h1 : 0 < (tiltedAttitude : Quaternion ℚ).RotationMatrix_IwrtB 2 2 := by
    norm_num [tiltedAttitude]
  have h2 : (tiltedAttitude : Quaternion ℚ).RotationMatrix_IwrtB 2 2
      < (levelAttitude : Quaternion ℚ).RotationMatrix_IwrtB 2 2 := by
    norm_num [tiltedAttitude, levelAttitude]
  have h3 : (levelAttitude : Quaternion ℚ).RotationMatrix_IwrtB 2 2 ≤ 1 := by
    norm_num [levelAttitude]
  have h4 : 0 < (AltitudeControl 9.81 (sampleQuad : QuadControl ℚ) (-5) 0 (-5) 0 levelAttitude 0
      0.02).1 := by
    norm_num [AltitudeControl, limitVelZCmd, CONSTRAIN, sampleQuad, levelAttitude]
  exact ⟨hm, h1, h2, h3, h4,
    AltitudeControl_tilt 9.81 sampleQuad (-5) 0 (-5) 0 levelAttitude tiltedAttitude 0 0.02
      hm h1 h2 h3 h4⟩

end Tilt

/-! ## Mixer inverse and the top-level tick -/

section Tick

variable {α : Type} [LinearOrderedField α]

/-- C19: for `L ≠ 0`, `kappa ≠ 0`, `l = L / sqrtf 2` and every thrust `T` and
moment `(Mx, My, Mz)` whose four unclamped values lie in
`[minMotorThrust, maxMotorThrust]`, the outputs satisfy `f1+f2+f3+f4 = T`,
`l*(f1-f2+f3-f4) = Mx`, `l*(f1+f2-f3-f4) = My` and
`-kappa*(f1-f2-f3+f4) = Mz`. -/
theorem GenerateMotorCommands_inverts_model (sqrtf : α → α) (qc : QuadControl α)
    (T Mx My Mz : α) (hs : IsSqrt sqrtf) (hL : qc.L ≠ 0) (hk : qc.kappa ≠ 0)
    (hin : ∀ i : Fin 4, qc.minMotorThrust ≤ motorThrusts sqrtf qc T ⟨Mx, My, Mz⟩ i
      ∧ motorThrusts sqrtf qc T ⟨Mx, My, Mz⟩ i ≤ qc.maxMotorThrust) :
    (GenerateMotorCommands sqrtf qc T ⟨Mx, My, Mz⟩).1.desiredThrustsN 0
        + (GenerateMotorCommands sqrtf qc T ⟨Mx, My, Mz⟩).1.desiredThrustsN 1
        + (GenerateMotorCommands sqrtf qc T ⟨Mx, My, Mz⟩).1.desiredThrustsN 2
        + (GenerateMotorCommands sqrtf qc T ⟨Mx, My, Mz⟩).1.desiredThrustsN 3 = T
    ∧ qc.L / sqrtf 2
        * ((GenerateMotorCommands sqrtf qc T ⟨Mx, My, Mz⟩).1.desiredThrustsN 0
          - (GenerateMotorCommands sqrtf qc T ⟨Mx, My, Mz⟩).1.desiredThrustsN 1
          + (GenerateMotorCommands sqrtf qc T ⟨Mx, My, Mz⟩).1.desiredThrustsN 2
          - (GenerateMotorCommands sqrtf qc T ⟨Mx, My, Mz⟩).1.desiredThrustsN 3) = Mx
    ∧ qc.L / sqrtf 2
        * ((GenerateMotorCommands sqrtf qc T ⟨Mx, My, Mz⟩).1.desiredThrustsN 0
          + (GenerateMotorCommands sqrtf qc T ⟨Mx, My, Mz⟩).1.desiredThrustsN 1
          - (GenerateMotorCommands sqrtf qc T ⟨Mx, My, Mz⟩).1.desiredThrustsN 2
          - (GenerateMotorCommands sqrtf qc T ⟨Mx, My, Mz⟩).1.desiredThrustsN 3) = My
    ∧ -qc.kappa
        * ((GenerateMotorCommands sqrtf qc T ⟨Mx, My, Mz⟩).1.desiredThrustsN 0
          - (GenerateMotorCommands sqrtf qc T ⟨Mx, My, Mz⟩).1.desiredThrustsN 1
          - (GenerateMotorCommands sqrtf qc T ⟨Mx, My, Mz⟩).1.desiredThrustsN 2
          + (GenerateMotorCommands sqrtf qc T ⟨Mx, My, Mz⟩).1.desiredThrustsN 3) = Mz := by
  have h2 : sqrtf 2 ≠ 0 := by
    intro h
    have := hs.mul_self (show (0 : α) ≤ 2 by norm_num)
    rw [h, mul_zero] at this
    norm_num at this
  have hl : qc.L / sqrtf 2 ≠ 0 := div_ne_zero hL h2
  have hf : ∀ i : Fin 4, (GenerateMotorCommands sqrtf qc T ⟨Mx, My, Mz⟩).1.desiredThrustsN i
      = motorThrusts sqrtf qc T ⟨Mx, My, Mz⟩ i := by
    intro i
    rw [GenerateMotorCommands_thrusts]
    exact CONSTRAIN_eq_self (hin i).1 (hin i).2
  rw [hf 0, hf 1, hf 2, hf 3]
  have q : (0.25 : α) = 1 / 4 := by norm_num
  simp only [motorThrusts, leverArm, q, Matrix.cons_val_zero, Matrix.cons_val_one,
    Matrix.head_cons, Matrix.cons_val_two, Matrix.tail_cons, Matrix.cons_val_three]
  have hx : qc.L / sqrtf 2 * (Mx / (qc.L / sqrtf 2)) = Mx := mul_div_cancel₀ _ hl
  have hy : qc.L / sqrtf 2 * (My / (qc.L / sqrtf 2)) = My := mul_div_cancel₀ _ hl
  have hz : -qc.kappa * (Mz / -qc.kappa) = Mz := mul_div_cancel₀ _ (neg_ne_zero.mpr hk)
  refine ⟨by ring, ?_, ?_, ?_⟩
  · linear_combination hx
  · linear_combination hy
  · linear_combination hz

/-- C19 at the sample controller: 4.9 N of collective thrust and no moment
are recovered from the four motor commands. -/
theorem GenerateMotorCommands_inverts_model_witness :
    IsSqrt Real.sqrt ∧ (sampleQuad : QuadControl ℝ).L ≠ 0
      ∧ (sampleQuad : QuadControl ℝ).kappa ≠ 0
      ∧ (∀ i : Fin 4, (sampleQuad : QuadControl ℝ).minMotorThrust
            ≤ motorThrusts Real.sqrt (sampleQuad : QuadControl ℝ) 4.9 ⟨0, 0, 0⟩ i
          ∧ motorThrusts Real.sqrt (sampleQuad : QuadControl ℝ) 4.9 ⟨0, 0, 0⟩ i
            ≤ (sampleQuad : QuadControl ℝ).maxMotorThrust)
      ∧ (GenerateMotorCommands Real.sqrt (sampleQuad : QuadControl ℝ) 4.9
            ⟨0, 0, 0⟩).1.desiredThrustsN 0
          + (GenerateMotorCommands Real.sqrt (sampleQuad : QuadControl ℝ) 4.9
            ⟨0, 0, 0⟩).1.desiredThrustsN 1
          + (GenerateMotorCommands Real.sqrt (sampleQuad : QuadControl ℝ) 4.9
            ⟨0, 0, 0⟩).1.desiredThrustsN 2
          + (GenerateMotorCommands Real.sqrt (sampleQuad : QuadControl ℝ) 4.9
            ⟨0, 0, 0⟩).1.desiredThrustsN 3 = 4.9 := by
  have hL : (sampleQuad : QuadControl ℝ).L ≠ 0 := by norm_num [sampleQuad]
  have hk : (sampleQuad : QuadControl ℝ).kappa ≠ 0 := by norm_num [sampleQuad]
  have hin : ∀ i : Fin 4, (sampleQuad : QuadControl ℝ).minMotorThrust
        ≤ motorThrusts Real.sqrt (sampleQuad : QuadControl ℝ) 4.9 ⟨0, 0, 0⟩ i
      ∧ motorThrusts Real.sqrt (sampleQuad : QuadControl ℝ) 4.9 ⟨0, 0, 0⟩ i
        ≤ (sampleQuad : QuadControl ℝ).maxMotorThrust := by
    intro i
    rw [motorThrusts_zero_moment]
    constructor <;> norm_num [sampleQuad]
  exact ⟨isSqrt_real, hL, hk, hin,
    (GenerateMotorCommands_inverts_model Real.sqrt sampleQuad 4.9 0 0 0 isSqrt_real hL hk
      hin).1⟩

/-- C20: if `0 ≤ minMotorThrust < maxMotorThrust` then for every output `T0` of
the altitude controller the clamped thrust `T` satisfies
`4*(minMotorThrust+margin) ≤ T ≤ 4*(maxMotorThrust-margin)` with
`margin = 0.1*(maxMotorThrust-minMotorThrust)`; hence `T > 0`, so
`RollPitchControl` takes its branch `collThrustCmd > 0` and, for a non-zero
mass, its divisor `c = -T/mass` is not 0; and
`minMotorThrust < T/4 < maxMotorThrust`, so with zero moment every motor
command is `T/4`, unsaturated. -/
theorem clampCollThrust_usable (sqrtf : α → α) (qc : QuadControl α) (attitude : Quaternion α)
    (T0 : α) (h0 : 0 ≤ qc.minMotorThrust) (h1 : qc.minMotorThrust < qc.maxMotorThrust) :
    4 * (qc.minMotorThrust + 0.1 * (qc.maxMotorThrust - qc.minMotorThrust))
        ≤ clampCollThrust qc T0
    ∧ clampCollThrust qc T0
        ≤ 4 * (qc.maxMotorThrust - 0.1 * (qc.maxMotorThrust - qc.minMotorThrust))
    ∧ 0 < clampCollThrust qc T0
    ∧ RollPitchControl_divisors qc attitude (clampCollThrust qc T0)
        = [qc.mass, -clampCollThrust qc T0 / qc.mass, -clampCollThrust qc T0 / qc.mass,
            attitude.RotationMatrix_IwrtB 2 2, attitude.RotationMatrix_IwrtB 2 2]
    ∧ (qc.mass ≠ 0 → -clampCollThrust qc T0 / qc.mass ≠ 0)
    ∧ qc.minMotorThrust < clampCollThrust qc T0 / 4
    ∧ clampCollThrust qc T0 / 4 < qc.maxMotorThrust
    ∧ ∀ i : Fin 4, (GenerateMotorCommands sqrtf qc (clampCollThrust qc T0)
        ⟨0, 0, 0⟩).1.desiredThrustsN i = clampCollThrust qc T0 / 4 := by
  have q : (0.1 : α) = 1 / 10 := by norm_num
  have hlohi : (qc.minMotorThrust + 0.1 * (qc.maxMotorThrust - qc.minMotorThrust)) * 4
      ≤ (qc.maxMotorThrust - 0.1 * (qc.maxMotorThrust - qc.minMotorThrust)) * 4 := by
    rw [q]
    linarith
  have hge : (qc.minMotorThrust + 0.1 * (qc.maxMotorThrust - qc.minMotorThrust)) * 4
      ≤ clampCollThrust qc T0 := CONSTRAIN_ge _ _ _
  have hle : clampCollThrust qc T0
      ≤ (qc.maxMotorThrust - 0.1 * (qc.maxMotorThrust - qc.minMotorThrust)) * 4 :=
    CONSTRAIN_le _ hlohi
  rw [q] at hge hle
  have hpos : 0 < clampCollThrust qc T0 := by linarith
  have hmin : qc.minMotorThrust < clampCollThrust qc T0 / 4 := by linarith
  have hmax : clampCollThrust qc T0 / 4 < qc.maxMotorThrust := by linarith
  refine ⟨by rw [q]; linarith, by rw [q]; linarith, hpos, ?_, ?_, hmin, hmax, ?_⟩
  · unfold RollPitchControl_divisors
    rw [if_pos hpos]
  · intro hm
    exact div_ne_zero (neg_ne_zero.mpr hpos.ne') hm
  · intro i
    rw [GenerateMotorCommands_thrusts, motorThrusts_zero_moment]
    exact CONSTRAIN_eq_self hmin.le hmax.le

/-- C20 at the sample controller (motor range `[0.1, 4.5]`, margin 0.44): an
altitude-controller output of 100 N is clamped to a usable thrust. -/
theorem clampCollThrust_usable_witness :
    0 ≤ (sampleQuad : QuadControl ℝ).minMotorThrust
      ∧ (sampleQuad : QuadControl ℝ).minMotorThrust < (sampleQuad : QuadControl ℝ).maxMotorThrust
      ∧ 0 < clampCollThrust (sampleQuad : QuadControl ℝ) 100
      ∧ (sampleQuad : QuadControl ℝ).minMotorThrust
          < clampCollThrust (sampleQuad : QuadControl ℝ) 100 / 4
      ∧ clampCollThrust (sampleQuad : QuadControl ℝ) 100 / 4
          < (sampleQuad : QuadControl ℝ).maxMotorThrust := by
  have h0 : 0 ≤ (sampleQuad : QuadControl ℝ).minMotorThrust := by norm_num [sampleQuad]
  have h1 : (sampleQuad : QuadControl ℝ).minMotorThrust
      < (sampleQuad : QuadControl ℝ).maxMotorThrust := by norm_num [sampleQuad]
  have h := clampCollThrust_usable Real.sqrt (sampleQuad : QuadControl ℝ) levelAttitude 100 h0 h1
  exact ⟨h0, h1, h.2.2.1, h.2.2.2.2.2.1, h.2.2.2.2.2.2.1⟩

end Tick

section Compose

variable {α : Type} [LinearOrderedField α] [FloorRing α]

omit [FloorRing α] in
/-- The altitude stage leaves the motor limits of the controller unchanged, so
the clamp of `RunControl` is the clamp written with `4 * (...)`. -/
lemma clampCollThrust_AltitudeControl (g : α) (qc : QuadControl α)
    (posZCmd velZCmd posZ velZ : α) (attitude : Quaternion α) (accelZCmd dt T0 : α) :
    clampCollThrust (AltitudeControl g qc posZCmd velZCmd posZ velZ attitude accelZCmd dt).2 T0
      = CONSTRAIN T0
          (4 * (qc.minMotorThrust + 0.1 * (qc.maxMotorThrust - qc.minMotorThrust)))
          (4 * (qc.maxMotorThrust - 0.1 * (qc.maxMotorThrust - qc.minMotorThrust))) := by
  unfold clampCollThrust AltitudeControl
  simp only []
  rw [mul_comm _ (4 : α), mul_comm _ (4 : α)]

/-- C16: `RunControl` returns, for every fuel, the motor command of the
composition `GenerateMotorCommands(T, BodyRateControl(w, estOmega))` with
`T = clamp(T0, 4*(minMotorThrust+margin), 4*(maxMotorThrust-margin))`,
`w.x, w.y` from `RollPitchControl(LateralPositionControl(...), estAtt, T)` and
`w.z` from `YawControl`; for `0 < F_PI` it does return once the fuel covers
the yaw loops, and when `minMotorThrust ≤ maxMotorThrust` every returned motor
thrust lies in `[minMotorThrust, maxMotorThrust]`. -/
theorem RunControl_composition (sqrtf : α → α) (CONST_GRAVITY F_PI : α)
    (GetNextTrajectoryPoint : α → TrajectoryPoint α) (c1 : Option (V3F α))
    (qc : QuadControl α) (est : VehicleState α) (dt simTime : α) (hF : 0 < F_PI) :
    (∀ fuel, (RunControl fuel sqrtf CONST_GRAVITY F_PI GetNextTrajectoryPoint c1 qc est dt
          simTime).map (fun r => r.1)
        = specRunControl fuel sqrtf CONST_GRAVITY F_PI (GetNextTrajectoryPoint simTime) c1 qc
            est dt)
    ∧ ∃ n : ℕ, ∀ fuel, n ≤ fuel →
        ∃ r, RunControl fuel sqrtf CONST_GRAVITY F_PI GetNextTrajectoryPoint c1 qc est dt
            simTime = some r
          ∧ specRunControl fuel sqrtf CONST_GRAVITY F_PI (GetNextTrajectoryPoint simTime) c1
              qc est dt = some r.1
          ∧ (qc.minMotorThrust ≤ qc.maxMotorThrust →
              ∀ i : Fin 4, qc.minMotorThrust ≤ r.1.desiredThrustsN i
                ∧ r.1.desiredThrustsN i ≤ qc.maxMotorThrust) := by
  have hcomp : ∀ fuel, (RunControl fuel sqrtf CONST_GRAVITY F_PI GetNextTrajectoryPoint c1 qc
        est dt simTime).map (fun r => r.1)
      = specRunControl fuel sqrtf CONST_GRAVITY F_PI (GetNextTrajectoryPoint simTime) c1 qc
          est dt := by
    intro fuel
    unfold RunControl specRunControl
    simp only [clampCollThrust_AltitudeControl, Option.map_map]
    rfl
  refine ⟨hcomp, ?_⟩
  obtain ⟨e, n, hrun, -⟩ := YawControlTrace_spec hF
    (AltitudeControl CONST_GRAVITY qc (GetNextTrajectoryPoint simTime).position.z
      (GetNextTrajectoryPoint simTime).velocity.z est.estPos.z est.estVel.z est.estAtt
      (GetNextTrajectoryPoint simTime).accel.z dt).2
    (GetNextTrajectoryPoint simTime).attitude.Yaw est.estAtt.Yaw
  refine ⟨n, fun fuel hfuel => ?_⟩
  have hc := hcomp fuel
  have hy : YawControl fuel F_PI
      (AltitudeControl CONST_GRAVITY qc (GetNextTrajectoryPoint simTime).position.z
        (GetNextTrajectoryPoint simTime).velocity.z est.estPos.z est.estVel.z est.estAtt
        (GetNextTrajectoryPoint simTime).accel.z dt).2
      (GetNextTrajectoryPoint simTime).attitude.Yaw est.estAtt.Yaw
      = some ((AltitudeControl CONST_GRAVITY qc (GetNextTrajectoryPoint simTime).position.z
        (GetNextTrajectoryPoint simTime).velocity.z est.estPos.z est.estVel.z est.estAtt
        (GetNextTrajectoryPoint simTime).accel.z dt).2.kpYaw * e) := by
    unfold YawControl
    rw [hrun fuel hfuel]
    rfl
  unfold RunControl at hc ⊢
  simp only [] at hc ⊢
  rw [hy] at hc ⊢
  simp only [Option.map_some'] at hc ⊢
  refine ⟨_, rfl, hc.symm, ?_⟩
  intro hmm i
  simp only [GenerateMotorCommands_thrusts]
  exact ⟨CONSTRAIN_ge _ _ _, CONSTRAIN_le _ hmm⟩

/-- C16 with `F_PI = π` and gravity 9.81 at the sample controller, state and
trajectory point, before the first call of `BodyRateControl`: the tick
returns the composed command, with every motor thrust in `[0.1, 4.5]`. -/
theorem RunControl_composition_witness :
    0 < Real.pi
      ∧ ∃ n : ℕ, ∀ fuel, n ≤ fuel →
        ∃ r, RunControl fuel Real.sqrt 9.81 Real.pi (fun _ => sampleTraj) none
            (sampleQuad : QuadControl ℝ) sampleState 0.02 0 = some r
          ∧ specRunControl fuel Real.sqrt 9.81 Real.pi sampleTraj none
              (sampleQuad : QuadControl ℝ) sampleState 0.02 = some r.1
          ∧ ∀ i : Fin 4, (0.1 : ℝ) ≤ r.1.desiredThrustsN i ∧ r.1.desiredThrustsN i ≤ 4.5 := by
  obtain ⟨n, hn⟩ := (RunControl_composition Real.sqrt 9.81 Real.pi (fun _ => sampleTraj) none
    (sampleQuad : QuadControl ℝ) sampleState 0.02 0 Real.pi_pos).2
  refine ⟨Real.pi_pos, n, fun fuel hfuel => ?_⟩
  obtain ⟨r, hr, hs, hb⟩ := hn fuel hfuel
  exact ⟨r, hr, hs, hb (by norm_num [sampleQuad])⟩

end Compose

end QuadControlModel
